import Mathlib

/-!
Shallow embedding of the `usbd-microsoft-os` crate (MS OS 2.0 USB descriptor
generation) and proofs about its size calculators, descriptor encoders and the
control-transfer dispatcher.

Machine integers are modelled as `Nat` with explicit `% 2^w` at the places
where the Rust code performs an `as` cast, and checked (`Option`-valued)
arithmetic at the places where `const fn` evaluation would abort on overflow.
Panics (out-of-bounds slice access, the version-floor check, arithmetic
overflow during const evaluation) are modelled as `none`.
-/

set_option linter.unreachableTactic false
set_option linter.unusedTactic false

namespace MsOs

/-- `u16::to_le_bytes`: little-endian bytes of a 16-bit value. -/
def u16le (n : Nat) : List Nat := [n % 256, n / 256 % 256]

/-- `u32::to_le_bytes`: little-endian bytes of a 32-bit value. -/
def u32le (n : Nat) : List Nat :=
  [n % 256, n / 256 % 256, n / 65536 % 256, n / 16777216 % 256]

/-- Checked 16-bit addition: `a + b` in `u16` inside a `const fn`;
overflow aborts const evaluation. -/
def add16 (a b : Nat) : Option Nat :=
  if a + b < 65536 then some (a + b) else none

/-- Checked 16-bit multiplication in `u16` inside a `const fn`. -/
def mul16 (a b : Nat) : Option Nat :=
  if a * b < 65536 then some (a * b) else none

/-- Checked 8-bit addition in `u8` inside a `const fn`. -/
def add8 (a b : Nat) : Option Nat :=
  if a + b < 256 then some (a + b) else none

/-- Checked 8-bit multiplication in `u8` inside a `const fn`. -/
def mul8 (a b : Nat) : Option Nat :=
  if a * b < 256 then some (a * b) else none

/-- `WindowsVersion::MINIMAL as u32` (`WinBlue`, Windows 8.1). -/
def WindowsVersion.MINIMAL : Nat := 0x06030000

/-- `WindowsVersion::check_minimal`: panics when the version is below the
floor `WindowsVersion::MINIMAL`. -/
def WindowsVersion.check_minimal (v : Nat) : Option Unit :=
  if v < WindowsVersion.MINIMAL then none else some ()

/-- `WindowsVersion::bytes`: runs `check_minimal`, then returns the
little-endian encoding of the version value. -/
def WindowsVersion.bytes (v : Nat) : Option (List Nat) :=
  (WindowsVersion.check_minimal v).bind fun _ => some (u32le v)

/-- `PropertyDataType` registry property type codes. -/
inductive PropertyDataType
  | RegSz
  | RegExpandSz
  | RegBinary
  | RegDwordLittleEndian
  | RegDwordBigEndian
  | RegLink
  | RegMutliSz
deriving DecidableEq

/-- The `u16` discriminant of a `PropertyDataType`. -/
def PropertyDataType.toNat : PropertyDataType → Nat
  | .RegSz => 1
  | .RegExpandSz => 2
  | .RegBinary => 3
  | .RegDwordLittleEndian => 4
  | .RegDwordBigEndian => 5
  | .RegLink => 6
  | .RegMutliSz => 7

/-- `FeatureDescriptor`: MS OS 2.0 feature descriptor variants.
`id`/`sub_id` model `&[u8; 8]` (byte lists of length 8), `name` models
`&[u16]` (a list of UTF-16 code units), `data` models `&[u8]`. -/
inductive FeatureDescriptor
  | CompatibleId (id sub_id : List Nat)
  | RegistryProperty (data_type : PropertyDataType) (name : List Nat) (data : List Nat)
  | ResumeTime (recovery signaling : Nat)
  | ModelId (id : List Nat)
  | CcgpDevice
  | VendorRevision (revision : Nat)
deriving DecidableEq

/-- `FunctionSubset`. -/
structure FunctionSubset where
  first_interface : Nat
  features : List FeatureDescriptor
deriving DecidableEq

/-- `ConfigurationSubset`. -/
structure ConfigurationSubset where
  configuration : Nat
  features : List FeatureDescriptor
  functions : List FunctionSubset
deriving DecidableEq

/-- `DescriptorSet`; `version` models the `u32` value of `WindowsVersion`. -/
structure DescriptorSet where
  version : Nat
  features : List FeatureDescriptor
  configurations : List ConfigurationSubset
deriving DecidableEq

/-- `CapabilityInfo`. -/
structure CapabilityInfo where
  descriptors : DescriptorSet
  alt_enum_cmd : Nat
deriving DecidableEq

/-- `Capabilities`. -/
structure Capabilities where
  infos : List CapabilityInfo
deriving DecidableEq

/-- `FeatureDescriptor::total_len`: the additions of the small constants are
in `u16`, and `(2 * name.len() + data.len()) as u16` is a silently
truncating cast of the `usize` sum; the final `u16` addition is checked. -/
def FeatureDescriptor.total_len : FeatureDescriptor → Option Nat
  | .CompatibleId _ _ => some 20
  | .RegistryProperty _ name data =>
      add16 10 ((2 * name.length + data.length) % 65536)
  | .ResumeTime _ _ => some 6
  | .ModelId _ => some 20
  | .CcgpDevice => some 4
  | .VendorRevision _ => some 6

/-- The loop body of the `impl_slice_total_len!` macro: iterate over the
items in order, accumulating `size += items[i].total_len()` with checked
`u16` addition. -/
def sliceTotalLenAux (lenOf : α → Option Nat) : List α → Nat → Option Nat
  | [], acc => some acc
  | x :: rest, acc =>
      (lenOf x).bind fun t =>
      (add16 acc t).bind fun acc2 =>
      sliceTotalLenAux lenOf rest acc2

/-- `FeatureDescriptor::slice_total_len` (from `impl_slice_total_len!`). -/
def FeatureDescriptor.slice_total_len (items : List FeatureDescriptor) : Option Nat :=
  sliceTotalLenAux FeatureDescriptor.total_len items 0

/-- `FunctionSubset::total_len = HEADER_SIZE (8) + slice_total_len(features)`. -/
def FunctionSubset.total_len (fn : FunctionSubset) : Option Nat :=
  (FeatureDescriptor.slice_total_len fn.features).bind fun a => add16 8 a

/-- `FunctionSubset::slice_total_len`. -/
def FunctionSubset.slice_total_len (items : List FunctionSubset) : Option Nat :=
  sliceTotalLenAux FunctionSubset.total_len items 0

/-- `ConfigurationSubset::total_len = HEADER_SIZE (8) + features + functions`,
evaluated left to right with checked `u16` additions. -/
def ConfigurationSubset.total_len (c : ConfigurationSubset) : Option Nat :=
  (FeatureDescriptor.slice_total_len c.features).bind fun a =>
  (add16 8 a).bind fun h =>
  (FunctionSubset.slice_total_len c.functions).bind fun b =>
  add16 h b

/-- `ConfigurationSubset::slice_total_len`. -/
def ConfigurationSubset.slice_total_len (items : List ConfigurationSubset) : Option Nat :=
  sliceTotalLenAux ConfigurationSubset.total_len items 0

/-- `DescriptorSet::total_len = HEADER_SIZE (10) + features + configurations`. -/
def DescriptorSet.total_len (s : DescriptorSet) : Option Nat :=
  (FeatureDescriptor.slice_total_len s.features).bind fun a =>
  (add16 10 a).bind fun h =>
  (ConfigurationSubset.slice_total_len s.configurations).bind fun b =>
  add16 h b

/-- `DescriptorSet::size` (`total_len as usize`). -/
def DescriptorSet.size (s : DescriptorSet) : Option Nat :=
  s.total_len

/-- `Capabilities::CAPABILITY_ID`: the MS OS 2.0 platform capability UUID
`D8DD60DF-4589-4CC7-9CD2-659D9E648A9F` with its fields encoded little-endian. -/
def CAPABILITY_ID : List Nat :=
  [0xDF, 0x60, 0xDD, 0xD8,
   0x89, 0x45,
   0xC7, 0x4C,
   0x9C,
   0xD2,
   0x65, 0x9D, 0x9E, 0x64, 0x8A, 0x9F]

/-- `Capabilities::total_len`: `HEADER_SIZE (20) + (infos.len() as u8) * 8`
where the cast of `infos.len()` to `u8` silently truncates and the `u8`
multiplication and addition are checked. -/
def Capabilities.total_len (c : Capabilities) : Option Nat :=
  (mul8 (c.infos.length % 256) 8).bind fun k => add8 20 k

/-- `Capabilities::data_len`: `(total_len - 3) as usize` (the subtraction
cannot underflow since `total_len ≥ 20` whenever it is defined). -/
def Capabilities.data_len (c : Capabilities) : Option Nat :=
  c.total_len.map fun t => t - 3

/-! ## The encoder

The const-fn encoders write into a zero-initialized fixed-length buffer
through a position cursor.  The buffer/cursor pair is `EncSt`; each write
is bounds-checked exactly as in the source (`slice_assign!` range checks,
plain `buf[pos] = v` indexing), with a panic modelled as `none`. -/

/-- Encoder state: the destination buffer and the write cursor `pos`. -/
structure EncSt where
  buf : List Nat
  pos : Nat
deriving DecidableEq

/-- The copy loop of `slice_assign!`: `dst[ds + i] = src[ss + i]` for
`i = 0, …, len − 1` (bounds already checked by the caller). -/
def writeRange (dst : List Nat) (ds : Nat) (src : List Nat) (ss : Nat) : Nat → List Nat
  | 0 => dst
  | Nat.succ len => writeRange (dst.set ds (src.getD ss 0)) (ds + 1) src (ss + 1) len

/-- `slice_assign!(dst[ds, de] = src[ss, se])`: range checks (panic is
`none`), then the element-wise copy. -/
def slice_assign (dst : List Nat) (ds de : Nat) (src : List Nat) (ss se : Nat) :
    Option (List Nat) :=
  if de > dst.length ∨ ds > de then none
  else if se > src.length ∨ ss > se then none
  else if se - ss ≠ de - ds then none
  else some (writeRange dst ds src ss (de - ds))

/-- A single bounds-checked store `buf[i] = v`. -/
def setByte (buf : List Nat) (i v : Nat) : Option (List Nat) :=
  if i < buf.length then some (buf.set i v) else none

/-- `descriptor_start!`: write `wLength` and `wDescriptorType` as
little-endian `u16` at `pos` and advance the cursor by 4. -/
def descriptor_start (st : EncSt) (len descType : Nat) : Option EncSt :=
  (slice_assign st.buf st.pos (st.pos + 2) (u16le len) 0 2).bind fun b1 =>
  (slice_assign b1 (st.pos + 2) (st.pos + 4) (u16le descType) 0 2).bind fun b2 =>
  some ⟨b2, st.pos + 4⟩

/-- The `wDescriptorType` code of a feature (`FeatureDescriptor::descriptor_type`). -/
def FeatureDescriptor.descriptor_type : FeatureDescriptor → Nat
  | .CompatibleId _ _ => 3
  | .RegistryProperty _ _ _ => 4
  | .ResumeTime _ _ => 5
  | .ModelId _ => 6
  | .CcgpDevice => 7
  | .VendorRevision _ => 8

/-- The `PropertyName` write loop of `feature_descriptor!`: each UTF-16 code
unit is stored as two little-endian bytes via direct indexing. -/
def writeName : List Nat → EncSt → Option EncSt
  | [], st => some st
  | c :: rest, st =>
      (setByte st.buf st.pos (c % 256)).bind fun b1 =>
      (setByte b1 (st.pos + 1) (c / 256 % 256)).bind fun b2 =>
      writeName rest ⟨b2, st.pos + 2⟩

/-- `feature_descriptor!`: header via `descriptor_start!` (the feature's
`total_len` is evaluated first), then the variant payload.  In the
`RegistryProperty` arm, `2 * name.len() as u16` truncates `name.len()` to
`u16` and then multiplies by 2 with a checked `u16` multiplication, and
`data.len() as u16` truncates silently; both `let`s precede the writes. -/
def feature_descriptor (f : FeatureDescriptor) (st : EncSt) : Option EncSt :=
  (f.total_len).bind fun tl =>
  (descriptor_start st tl f.descriptor_type).bind fun st1 =>
  match f with
  | .CompatibleId id sub_id =>
      (slice_assign st1.buf st1.pos (st1.pos + 8) id 0 8).bind fun b1 =>
      (slice_assign b1 (st1.pos + 8) (st1.pos + 16) sub_id 0 8).bind fun b2 =>
      some ⟨b2, st1.pos + 16⟩
  | .RegistryProperty data_type name data =>
      (mul16 2 (name.length % 65536)).bind fun nl =>
      (slice_assign st1.buf st1.pos (st1.pos + 2) (u16le data_type.toNat) 0 2).bind fun b1 =>
      (slice_assign b1 (st1.pos + 2) (st1.pos + 4) (u16le nl) 0 2).bind fun b2 =>
      (writeName name ⟨b2, st1.pos + 4⟩).bind fun st2 =>
      (slice_assign st2.buf st2.pos (st2.pos + 2) (u16le (data.length % 65536)) 0 2).bind fun b3 =>
      (slice_assign b3 (st2.pos + 2) (st2.pos + 2 + data.length) data 0 data.length).bind fun b4 =>
      some ⟨b4, st2.pos + 2 + data.length⟩
  | .ResumeTime recovery signaling =>
      (setByte st1.buf st1.pos recovery).bind fun b1 =>
      (setByte b1 (st1.pos + 1) signaling).bind fun b2 =>
      some ⟨b2, st1.pos + 2⟩
  | .ModelId id =>
      (slice_assign st1.buf st1.pos (st1.pos + 16) id 0 16).bind fun b1 =>
      some ⟨b1, st1.pos + 16⟩
  | .CcgpDevice => some st1
  | .VendorRevision revision =>
      (slice_assign st1.buf st1.pos (st1.pos + 2) (u16le revision) 0 2).bind fun b1 =>
      some ⟨b1, st1.pos + 2⟩

/-- `FeatureDescriptor::descriptor::<N>()`: encode one feature into a fresh
zero buffer of length `N`. -/
def FeatureDescriptor.descriptor (f : FeatureDescriptor) (N : Nat) : Option (List Nat) :=
  (feature_descriptor f ⟨List.replicate N 0, 0⟩).map EncSt.buf

/-- The device/configuration/function-level feature loops of
`DescriptorSet::descriptor`. -/
def encFeatures : List FeatureDescriptor → EncSt → Option EncSt
  | [], st => some st
  | f :: rest, st => (feature_descriptor f st).bind (encFeatures rest)

/-- One function subset of `DescriptorSet::descriptor`: 8-byte header
(`descriptor_start!`, `bFirstInterface`, `bReserved`, `wSubsetLength`)
followed by its features. -/
def encFunction (fn : FunctionSubset) (st : EncSt) : Option EncSt :=
  (descriptor_start st 8 2).bind fun st1 =>
  (setByte st1.buf st1.pos fn.first_interface).bind fun b1 =>
  (setByte b1 (st1.pos + 1) 0).bind fun b2 =>
  (fn.total_len).bind fun tl =>
  (slice_assign b2 (st1.pos + 2) (st1.pos + 4) (u16le tl) 0 2).bind fun b3 =>
  encFeatures fn.features ⟨b3, st1.pos + 4⟩

/-- The function subset loop of `DescriptorSet::descriptor`. -/
def encFunctions : List FunctionSubset → EncSt → Option EncSt
  | [], st => some st
  | fn :: rest, st => (encFunction fn st).bind (encFunctions rest)

/-- One configuration subset of `DescriptorSet::descriptor`: 8-byte header
(`descriptor_start!`, `bConfigurationValue`, `bReserved`, `wTotalLength`),
its features, then its function subsets. -/
def encConfiguration (c : ConfigurationSubset) (st : EncSt) : Option EncSt :=
  (descriptor_start st 8 1).bind fun st1 =>
  (setByte st1.buf st1.pos c.configuration).bind fun b1 =>
  (setByte b1 (st1.pos + 1) 0).bind fun b2 =>
  (c.total_len).bind fun tl =>
  (slice_assign b2 (st1.pos + 2) (st1.pos + 4) (u16le tl) 0 2).bind fun b3 =>
  (encFeatures c.features ⟨b3, st1.pos + 4⟩).bind fun st2 =>
  encFunctions c.functions st2

/-- The configuration subset loop of `DescriptorSet::descriptor`. -/
def encConfigurations : List ConfigurationSubset → EncSt → Option EncSt
  | [], st => some st
  | c :: rest, st => (encConfiguration c st).bind (encConfigurations rest)

/-- `DescriptorSet::descriptor::<N>()` with the final encoder state exposed:
zero-initialized buffer of length `N`, set header (`descriptor_start!` with
`HEADER_SIZE = 10` and type 0, then `total_len`, then the version bytes with
their floor check, written at fixed offsets 4..10), the device-level
features, then the configuration subsets. -/
def DescriptorSet.descriptorSt (s : DescriptorSet) (N : Nat) : Option EncSt :=
  (descriptor_start ⟨List.replicate N 0, 0⟩ 10 0).bind fun st1 =>
  (s.total_len).bind fun tl =>
  (WindowsVersion.bytes s.version).bind fun ver =>
  (slice_assign st1.buf 4 8 ver 0 4).bind fun b1 =>
  (slice_assign b1 8 10 (u16le tl) 0 2).bind fun b2 =>
  (encFeatures s.features ⟨b2, st1.pos + 6⟩).bind fun st2 =>
  encConfigurations s.configurations st2

/-- `DescriptorSet::descriptor::<N>()`: the returned buffer. -/
def DescriptorSet.descriptor (s : DescriptorSet) (N : Nat) : Option (List Nat) :=
  (s.descriptorSt N).map EncSt.buf

/-- The per-`CapabilityInfo` loop of `Capabilities::descriptor_data`:
version bytes (with floor check), descriptor set `total_len`, the 8-byte
record writes, with the vendor code `(i + 1) as u8`. -/
def capLoop : List CapabilityInfo → Nat → EncSt → Option EncSt
  | [], _, st => some st
  | info :: rest, i, st =>
      (WindowsVersion.bytes info.descriptors.version).bind fun ver =>
      (info.descriptors.total_len).bind fun tl =>
      (slice_assign st.buf st.pos (st.pos + 4) ver 0 4).bind fun b1 =>
      (slice_assign b1 (st.pos + 4) (st.pos + 6) (u16le tl) 0 2).bind fun b2 =>
      (setByte b2 (st.pos + 6) ((i + 1) % 256)).bind fun b3 =>
      (setByte b3 (st.pos + 7) info.alt_enum_cmd).bind fun b4 =>
      capLoop rest (i + 1) ⟨b4, st.pos + 8⟩

/-- `Capabilities::descriptor_data::<N>()`: `buf[0] = 0` (bReserved), the
16-byte `CAPABILITY_ID` at offsets 1..17, then one 8-byte record per
`CapabilityInfo`. -/
def Capabilities.descriptor_data (c : Capabilities) (N : Nat) : Option (List Nat) :=
  (setByte (List.replicate N 0) 0 0).bind fun b0 =>
  (slice_assign b0 1 17 CAPABILITY_ID 0 16).bind fun b1 =>
  (capLoop c.infos 0 ⟨b1, 17⟩).map EncSt.buf

/-! ## The control-transfer dispatcher (`class.rs`)

The `usb-device` request object is modelled by its fields used in
`MsOsUsbClass::control_in` / `control_out`; the transfer outcome is the
observable effect on the `ControlIn`/`ControlOut` transfer object. -/

/-- `control::RequestType`. -/
inductive RequestType
  | Standard
  | Class
  | Vendor
  | Reserved
deriving DecidableEq

/-- `control::Recipient`. -/
inductive Recipient
  | Device
  | Interface
  | Endpoint
  | Other
deriving DecidableEq

/-- The fields of `control::Request` read by the dispatcher
(`request` is the `bRequest` byte, `value`/`index` are `u16`). -/
structure ControlRequest where
  request_type : RequestType
  recipient : Recipient
  request : Nat
  value : Nat
  index : Nat
deriving DecidableEq

/-- Observable outcome of a control transfer handler. -/
inductive XferOutcome
  | acceptedWithStatic (data : List Nat)
  | rejected
  | ignored
deriving DecidableEq

/-- Modelled from the spec: `Capabilities::vendor_code_to_descriptor_set` is
called by `MsOsUsbClass::control_in` but is not present in the available
sources.  Per the spec, the discovery handler "maps the request's selector
field through CapabilityInfo's 1-based vendor-code convention to an index
into the statically pre-built array", i.e. index = vendor code − 1, with 0
not a valid vendor code. -/
def vendor_code_to_descriptor_set (code : Nat) : Option Nat :=
  if code = 0 then none else some (code - 1)

/-- `DescriptorIndex::Descriptor as u16`. -/
def DescriptorIndex.Descriptor : Nat := 0x07

/-- `DescriptorIndex::SetAltEnumeration as u16`. -/
def DescriptorIndex.SetAltEnumeration : Nat := 0x08

/-- `MsOsUsbClass::control_in`: for a Vendor-type, Device-recipient request
with `wIndex = DescriptorIndex::Descriptor`, map the vendor code through
`vendor_code_to_descriptor_set` and look the index up in the static
descriptor set buffers; accept with that buffer, else reject.  Any other
request is left untouched for other classes in the pipeline. -/
def MsOsUsbClass.control_in (sets : List (List Nat)) (req : ControlRequest) : XferOutcome :=
  if req.request_type = RequestType.Vendor ∧ req.recipient = Recipient.Device
      ∧ req.index = DescriptorIndex.Descriptor then
    match (vendor_code_to_descriptor_set req.request).bind sets.get? with
    | some s => .acceptedWithStatic s
    | none => .rejected
  else .ignored

/-- `MsOsUsbClass::control_out`: for a Vendor-type, Device-recipient request
with `wIndex = DescriptorIndex::SetAltEnumeration`, the alternate
enumeration code (`value.to_le_bytes()[1]`) is extracted but the feature is
unimplemented, so the transfer is always rejected.  Any other request is
left untouched. -/
def MsOsUsbClass.control_out (req : ControlRequest) : XferOutcome :=
  if req.request_type = RequestType.Vendor ∧ req.recipient = Recipient.Device
      ∧ req.index = DescriptorIndex.SetAltEnumeration then
    let _alt_enum_code := req.value / 256 % 256
    .rejected
  else .ignored

/-! ## Pure specification-side functions

`featureLen` etc. are the untruncated encoded lengths; `featureBytes` etc.
are the expected byte streams.  The well-formedness predicates `wf` state
the constraints that the Rust types enforce (fixed array lengths) together
with the wire-width bounds under which no cast truncates. -/

/-- The untruncated encoded length of a feature descriptor. -/
def featureLen : FeatureDescriptor → Nat
  | .CompatibleId _ _ => 20
  | .RegistryProperty _ name data => 10 + 2 * name.length + data.length
  | .ResumeTime _ _ => 6
  | .ModelId _ => 20
  | .CcgpDevice => 4
  | .VendorRevision _ => 6

/-- Sum of the untruncated feature lengths. -/
def featuresLen (fs : List FeatureDescriptor) : Nat :=
  (fs.map featureLen).sum

/-- Untruncated encoded length of a function subset. -/
def functionLen (fn : FunctionSubset) : Nat :=
  8 + featuresLen fn.features

/-- Sum of untruncated function subset lengths. -/
def functionsLen (fns : List FunctionSubset) : Nat :=
  (fns.map functionLen).sum

/-- Untruncated encoded length of a configuration subset. -/
def configurationLen (c : ConfigurationSubset) : Nat :=
  8 + featuresLen c.features + functionsLen c.functions

/-- Sum of untruncated configuration subset lengths. -/
def configurationsLen (cs : List ConfigurationSubset) : Nat :=
  (cs.map configurationLen).sum

/-- Untruncated encoded length of a whole descriptor set. -/
def setLen (s : DescriptorSet) : Nat :=
  10 + featuresLen s.features + configurationsLen s.configurations

/-- Well-formed feature: the Rust-type side conditions (`&[u8; 8]`,
`&[u8; 16]`) plus the requirement that the encoded length fits in the
16-bit wire width. -/
def FeatureDescriptor.wf : FeatureDescriptor → Prop
  | .CompatibleId id sub_id => id.length = 8 ∧ sub_id.length = 8
  | .RegistryProperty _ name data => 10 + 2 * name.length + data.length < 65536
  | .ModelId id => id.length = 16
  | _ => True

instance : DecidablePred FeatureDescriptor.wf := fun f => by
  cases f <;> simp only [FeatureDescriptor.wf] <;> infer_instance

/-- Well-formed function subset. -/
def FunctionSubset.wf (fn : FunctionSubset) : Prop :=
  (∀ f ∈ fn.features, f.wf) ∧ functionLen fn < 65536

/-- Well-formed configuration subset. -/
def ConfigurationSubset.wf (c : ConfigurationSubset) : Prop :=
  (∀ f ∈ c.features, f.wf) ∧ (∀ fn ∈ c.functions, fn.wf) ∧ configurationLen c < 65536

/-- Well-formed descriptor set. -/
def DescriptorSet.wf (s : DescriptorSet) : Prop :=
  (∀ f ∈ s.features, f.wf) ∧ (∀ c ∈ s.configurations, c.wf) ∧ setLen s < 65536

/-- UTF-16LE byte stream of a name (each code unit little-endian). -/
def nameBytes : List Nat → List Nat
  | [] => []
  | c :: rest => c % 256 :: c / 256 % 256 :: nameBytes rest

/-- Expected wire bytes of a single feature descriptor. -/
def featureBytes : FeatureDescriptor → List Nat
  | .CompatibleId id sub_id =>
      u16le 20 ++ u16le 3 ++ id ++ sub_id
  | .RegistryProperty data_type name data =>
      u16le (10 + 2 * name.length + data.length) ++ u16le 4 ++
        u16le data_type.toNat ++ u16le (2 * name.length) ++
        nameBytes name ++ u16le data.length ++ data
  | .ResumeTime recovery signaling =>
      u16le 6 ++ u16le 5 ++ [recovery, signaling]
  | .ModelId id => u16le 20 ++ u16le 6 ++ id
  | .CcgpDevice => u16le 4 ++ u16le 7
  | .VendorRevision revision => u16le 6 ++ u16le 8 ++ u16le revision

/-- Concatenated wire bytes of a feature list. -/
def featuresBytes (fs : List FeatureDescriptor) : List Nat :=
  (fs.map featureBytes).flatten

/-- Expected wire bytes of a function subset. -/
def functionBytes (fn : FunctionSubset) : List Nat :=
  u16le 8 ++ u16le 2 ++ [fn.first_interface, 0] ++ u16le (functionLen fn) ++
    featuresBytes fn.features

/-- Concatenated wire bytes of a function subset list. -/
def functionsBytes (fns : List FunctionSubset) : List Nat :=
  (fns.map functionBytes).flatten

/-- Expected wire bytes of a configuration subset. -/
def configurationBytes (c : ConfigurationSubset) : List Nat :=
  u16le 8 ++ u16le 1 ++ [c.configuration, 0] ++ u16le (configurationLen c) ++
    featuresBytes c.features ++ functionsBytes c.functions

/-- Concatenated wire bytes of a configuration subset list. -/
def configurationsBytes (cs : List ConfigurationSubset) : List Nat :=
  (cs.map configurationBytes).flatten

/-- Expected wire bytes of a whole descriptor set. -/
def setBytes (s : DescriptorSet) : List Nat :=
  u16le 10 ++ u16le 0 ++ u32le s.version ++ u16le (setLen s) ++
    featuresBytes s.features ++ configurationsBytes s.configurations

/-- Expected 8-byte record of one `CapabilityInfo` at 0-based position `i`. -/
def capInfoBytes (info : CapabilityInfo) (i : Nat) : List Nat :=
  u32le info.descriptors.version ++ u16le (setLen info.descriptors) ++
    [(i + 1) % 256, info.alt_enum_cmd]

/-- Concatenated records of a `CapabilityInfo` list starting at position `i`. -/
def capInfosBytes : List CapabilityInfo → Nat → List Nat
  | [], _ => []
  | info :: rest, i => capInfoBytes info i ++ capInfosBytes rest (i + 1)

/-- Well-formed capability set: every referenced descriptor set is
well-formed and at or above the version floor. -/
def Capabilities.wf (c : Capabilities) : Prop :=
  ∀ info ∈ c.infos, info.descriptors.wf ∧ WindowsVersion.MINIMAL ≤ info.descriptors.version

/-- Write a byte list into `buf` starting at position `p` (no bounds check;
used only as the functional description of the checked writes). -/
def writeBytes : List Nat → Nat → List Nat → List Nat
  | buf, _, [] => buf
  | buf, p, b :: rest => writeBytes (buf.set p b) (p + 1) rest

/-! ## Decidability of well-formedness, concrete examples -/

instance : DecidablePred FunctionSubset.wf := fun fn => by
  unfold FunctionSubset.wf
  infer_instance

instance : DecidablePred ConfigurationSubset.wf := fun c => by
  unfold ConfigurationSubset.wf
  infer_instance

instance : DecidablePred DescriptorSet.wf := fun s => by
  unfold DescriptorSet.wf
  infer_instance

instance : DecidablePred Capabilities.wf := fun c => by
  unfold Capabilities.wf
  infer_instance

/-- The 8-byte compatible ID string `WINUSB\x00\x00`. -/
def winusbId : List Nat := [0x57, 0x49, 0x4E, 0x55, 0x53, 0x42, 0x00, 0x00]

/-- UTF-16 code units of the registry property name
`DeviceInterfaceGUIDs` with the trailing null (21 units). -/
def digName : List Nat :=
  [0x44, 0x65, 0x76, 0x69, 0x63, 0x65, 0x49, 0x6E, 0x74, 0x65, 0x72, 0x66,
   0x61, 0x63, 0x65, 0x47, 0x55, 0x49, 0x44, 0x73, 0x00]

/-- UTF-16 code units of the 38-character GUID string
`\x7b897d7b90-5aae-43e5-9c36-aa0f2fdbafc9\x7d` followed by two null code
units (40 units; the crate test's `utf16_null_le_bytes!` value). -/
def guidUnits : List Nat :=
  [0x7B, 0x38, 0x39, 0x37, 0x64, 0x37, 0x62, 0x39, 0x30, 0x2D,
   0x35, 0x61, 0x61, 0x65, 0x2D, 0x34, 0x33, 0x65, 0x35, 0x2D,
   0x39, 0x63, 0x33, 0x36, 0x2D, 0x61, 0x61, 0x30, 0x66, 0x32,
   0x66, 0x64, 0x62, 0x61, 0x66, 0x63, 0x39, 0x7D, 0x00, 0x00]

/-- The WinUSB example descriptor set from the crate (test `descriptor_set`):
version floor, one configuration subset (id 0) with one function subset
(first interface 1) holding a CompatibleId and a RegistryProperty feature. -/
def EXAMPLE_SET : DescriptorSet :=
  { version := 0x06030000,
    features := [],
    configurations :=
      [{ configuration := 0,
         features := [],
         functions :=
           [{ first_interface := 1,
              features :=
                [.CompatibleId winusbId (List.replicate 8 0),
                 .RegistryProperty .RegMutliSz digName (nameBytes guidUnits)] }] }] }

/-- The expected 178-byte wire image of `EXAMPLE_SET`, field by field. -/
def exampleSetBytes : List Nat :=
  [0x0A, 0x00] ++ [0x00, 0x00] ++ [0x00, 0x00, 0x03, 0x06] ++ [0xB2, 0x00] ++
  [0x08, 0x00] ++ [0x01, 0x00] ++ [0x00] ++ [0x00] ++ [0xA8, 0x00] ++
  [0x08, 0x00] ++ [0x02, 0x00] ++ [0x01] ++ [0x00] ++ [0xA0, 0x00] ++
  [0x14, 0x00] ++ [0x03, 0x00] ++ winusbId ++ List.replicate 8 0 ++
  [0x84, 0x00] ++ [0x04, 0x00] ++ [0x07, 0x00] ++ [0x2A, 0x00] ++
    nameBytes digName ++ [0x50, 0x00] ++ nameBytes guidUnits

/-! ## Write-primitive lemmas -/

theorem writeBytes_length (src : List Nat) : ∀ (buf : List Nat) (p : Nat),
    (writeBytes buf p src).length = buf.length := by
  induction src with
  | nil => intro buf p; rfl
  | cons b rest ih => intro buf p; simp [writeBytes, ih]

theorem writeBytes_append (s1 s2 : List Nat) : ∀ (buf : List Nat) (p : Nat),
    writeBytes buf p (s1 ++ s2) = writeBytes (writeBytes buf p s1) (p + s1.length) s2 := by
  induction s1 with
  | nil => intro buf p; simp [writeBytes]
  | cons b rest ih =>
      intro buf p
      rw [List.cons_append]
      show writeBytes (buf.set p b) (p + 1) (rest ++ s2) = _
      rw [ih]
      show _ = writeBytes (writeBytes (buf.set p b) (p + 1) rest) (p + (rest.length + 1)) s2
      congr 1
      omega

theorem writeBytes_cons (src : List Nat) : ∀ (x : Nat) (t : List Nat) (p : Nat),
    writeBytes (x :: t) (p + 1) src = x :: writeBytes t p src := by
  induction src with
  | nil => intro x t p; rfl
  | cons b rest ih =>
      intro x t p
      show writeBytes ((x :: t).set (p + 1) b) (p + 2) rest = _
      show writeBytes (x :: t.set p b) (p + 2) rest = _
      rw [show p + 2 = (p + 1) + 1 from rfl, ih]
      rfl

theorem writeBytes_zero (src : List Nat) : ∀ (buf : List Nat),
    src.length ≤ buf.length →
    writeBytes buf 0 src = src ++ buf.drop src.length := by
  induction src with
  | nil => intro buf _; rfl
  | cons b rest ih =>
      intro buf h
      match buf with
      | [] => simp at h
      | x :: t =>
          show writeBytes ((x :: t).set 0 b) 1 rest = _
          show writeBytes (b :: t) 1 rest = _
          rw [show (1 : Nat) = 0 + 1 from rfl, writeBytes_cons]
          rw [ih t (by simpa using h)]
          rfl

theorem writeBytes_spec (src : List Nat) : ∀ (p : Nat) (buf : List Nat),
    p + src.length ≤ buf.length →
    writeBytes buf p src = buf.take p ++ src ++ buf.drop (p + src.length) := by
  intro p
  induction p with
  | zero =>
      intro buf h
      rw [writeBytes_zero src buf (by omega)]
      simp
  | succ n ih =>
      intro buf h
      match buf with
      | [] => simp at h
      | x :: t =>
          rw [writeBytes_cons, ih t (by simp at h; omega)]
          simp only [List.take_succ_cons, List.cons_append]
          rw [show n + 1 + src.length = (n + src.length) + 1 from by omega,
            List.drop_succ_cons]

theorem writeRange_eq : ∀ (k : Nat) (dst : List Nat) (ds : Nat) (src : List Nat) (ss : Nat),
    ss + k ≤ src.length →
    writeRange dst ds src ss k = writeBytes dst ds ((src.drop ss).take k) := by
  intro k
  induction k with
  | zero => intro dst ds src ss _; simp [writeRange, writeBytes]
  | succ n ih =>
      intro dst ds src ss h
      have hss : ss < src.length := by omega
      show writeRange (dst.set ds (src.getD ss 0)) (ds + 1) src (ss + 1) n = _
      rw [ih _ _ _ _ (by omega)]
      rw [List.drop_eq_getElem_cons hss, List.take_succ_cons]
      rw [List.getD_eq_getElem src 0 hss]
      rfl

theorem slice_assign_eq (buf : List Nat) (p de k : Nat) (src : List Nat)
    (hde : de = p + k) (hsrc : k ≤ src.length) :
    slice_assign buf p de src 0 k =
      if p + k ≤ buf.length then some (writeBytes buf p (src.take k)) else none := by
  subst hde
  by_cases hb : p + k ≤ buf.length
  · rw [if_pos hb]
    unfold slice_assign
    rw [if_neg (by omega : ¬(p + k > buf.length ∨ p > p + k))]
    rw [if_neg (by omega : ¬(k > src.length ∨ 0 > k))]
    rw [if_neg (by omega : ¬(k - 0 ≠ p + k - p))]
    congr 1
    have hk : p + k - p = k := by omega
    rw [hk, writeRange_eq k buf p src 0 (by omega), List.drop_zero]
  · rw [if_neg hb]
    unfold slice_assign
    rw [if_pos (Or.inl (by omega : p + k > buf.length))]

theorem setByte_eq (buf : List Nat) (i v : Nat) :
    setByte buf i v =
      if i + 1 ≤ buf.length then some (writeBytes buf i [v]) else none := by
  unfold setByte
  by_cases h : i < buf.length
  · rw [if_pos h, if_pos (by omega)]; rfl
  · rw [if_neg h, if_neg (by omega)]

theorem descriptor_start_eq (st : EncSt) (len descType : Nat) :
    descriptor_start st len descType =
      if st.pos + 4 ≤ st.buf.length then
        some ⟨writeBytes st.buf st.pos (u16le len ++ u16le descType), st.pos + 4⟩
      else none := by
  unfold descriptor_start
  rw [slice_assign_eq st.buf st.pos (st.pos + 2) 2 (u16le len) rfl (by simp [u16le])]
  by_cases h1 : st.pos + 2 ≤ st.buf.length
  · rw [if_pos h1, Option.some_bind]
    rw [slice_assign_eq _ (st.pos + 2) (st.pos + 4) 2 (u16le descType) (by omega)
      (by simp [u16le])]
    rw [writeBytes_length]
    by_cases h3 : st.pos + 2 + 2 ≤ st.buf.length
    · rw [if_pos h3, if_pos (by omega), Option.some_bind]
      have e1 : (u16le len).take 2 = u16le len := by simp [u16le]
      have e2 : (u16le descType).take 2 = u16le descType := by simp [u16le]
      rw [e1, e2]
      rw [writeBytes_append (u16le len) (u16le descType) st.buf st.pos]
      rfl
    · rw [if_neg h3, if_neg (by omega), Option.none_bind]
  · rw [if_neg h1, if_neg (by omega), Option.none_bind]

theorem writeBytes_writeBytes (buf : List Nat) (p : Nat) (s1 s2 : List Nat) (q : Nat)
    (h : q = p + s1.length) :
    writeBytes (writeBytes buf p s1) q s2 = writeBytes buf p (s1 ++ s2) := by
  subst h; rw [writeBytes_append]

/-! ## Size-calculator exactness -/

theorem nameBytes_length (l : List Nat) : (nameBytes l).length = 2 * l.length := by
  induction l with
  | nil => rfl
  | cons c rest ih => simp [nameBytes, ih]; omega

theorem featureBytes_length (f : FeatureDescriptor) (hf : f.wf) :
    (featureBytes f).length = featureLen f := by
  cases f with
  | CompatibleId id sub_id =>
      obtain ⟨h1, h2⟩ := hf
      simp [featureBytes, featureLen, u16le, h1, h2]
  | RegistryProperty dt name data =>
      simp [featureBytes, featureLen, u16le, nameBytes_length]
      omega
  | ResumeTime r s => simp [featureBytes, featureLen, u16le]
  | ModelId id =>
      simp [featureBytes, featureLen, u16le, hf]
      exact hf
  | CcgpDevice => simp [featureBytes, featureLen, u16le]
  | VendorRevision rev => simp [featureBytes, featureLen, u16le]

theorem featureLen_ge (f : FeatureDescriptor) : 4 ≤ featureLen f := by
  cases f <;> simp only [featureLen] <;> omega

theorem featureTotalLen_eq (f : FeatureDescriptor) (hf : f.wf) :
    f.total_len = some (featureLen f) := by
  cases f with
  | RegistryProperty dt name data =>
      have hlt : 2 * name.length + data.length < 65536 := by
        simp only [FeatureDescriptor.wf] at hf; omega
      simp only [FeatureDescriptor.total_len, featureLen, add16,
        Nat.mod_eq_of_lt hlt]
      rw [if_pos (by simp only [FeatureDescriptor.wf] at hf; omega)]
      congr 1
      omega
  | CompatibleId id sub_id => rfl
  | ResumeTime r s => rfl
  | ModelId id => rfl
  | CcgpDevice => rfl
  | VendorRevision rev => rfl

theorem sliceTotalLenAux_eq {α : Type} (lenOf : α → Option Nat) (len : α → Nat)
    (items : List α) (hl : ∀ x ∈ items, lenOf x = some (len x)) :
    ∀ acc : Nat, acc + (items.map len).sum < 65536 →
      sliceTotalLenAux lenOf items acc = some (acc + (items.map len).sum) := by
  induction items with
  | nil => intro acc _; simp [sliceTotalLenAux]
  | cons x rest ih =>
      intro acc hacc
      simp only [List.map_cons, List.sum_cons] at hacc ⊢
      simp only [sliceTotalLenAux, hl x (by simp), Option.some_bind]
      have hx : acc + len x < 65536 := by omega
      simp only [add16, if_pos hx, Option.some_bind]
      rw [ih (fun y hy => hl y (by simp [hy])) (acc + len x) (by omega)]
      congr 1
      omega

theorem features_slice_total_len (fs : List FeatureDescriptor)
    (h : ∀ f ∈ fs, f.wf) (hsum : featuresLen fs < 65536) :
    FeatureDescriptor.slice_total_len fs = some (featuresLen fs) := by
  unfold FeatureDescriptor.slice_total_len
  rw [sliceTotalLenAux_eq FeatureDescriptor.total_len featureLen fs
    (fun f hf => featureTotalLen_eq f (h f hf)) 0
    (by simpa [featuresLen] using hsum)]
  simp [featuresLen]

theorem functionTotalLen_eq (fn : FunctionSubset) (h : fn.wf) :
    fn.total_len = some (functionLen fn) := by
  obtain ⟨hf, hlen⟩ := h
  unfold FunctionSubset.total_len
  rw [features_slice_total_len fn.features hf (by simp [functionLen] at hlen; omega)]
  simp only [Option.some_bind, add16, functionLen]
  rw [if_pos (by simp [functionLen] at hlen; omega)]

theorem functions_slice_total_len (fns : List FunctionSubset)
    (h : ∀ fn ∈ fns, fn.wf) (hsum : functionsLen fns < 65536) :
    FunctionSubset.slice_total_len fns = some (functionsLen fns) := by
  unfold FunctionSubset.slice_total_len
  rw [sliceTotalLenAux_eq FunctionSubset.total_len functionLen fns
    (fun fn hfn => functionTotalLen_eq fn (h fn hfn)) 0
    (by simpa [functionsLen] using hsum)]
  simp [functionsLen]

theorem configurationTotalLen_eq (c : ConfigurationSubset) (h : c.wf) :
    c.total_len = some (configurationLen c) := by
  obtain ⟨hf, hfn, hlen⟩ := h
  unfold ConfigurationSubset.total_len
  rw [features_slice_total_len c.features hf (by simp [configurationLen] at hlen; omega)]
  simp only [Option.some_bind]
  rw [show add16 8 (featuresLen c.features) = some (8 + featuresLen c.features) from by
    simp only [add16]; rw [if_pos (by simp [configurationLen] at hlen; omega)]]
  simp only [Option.some_bind]
  rw [functions_slice_total_len c.functions hfn (by simp [configurationLen] at hlen; omega)]
  simp only [Option.some_bind, add16, configurationLen]
  rw [if_pos (by simp [configurationLen] at hlen; omega)]

theorem configurations_slice_total_len (cs : List ConfigurationSubset)
    (h : ∀ c ∈ cs, c.wf) (hsum : configurationsLen cs < 65536) :
    ConfigurationSubset.slice_total_len cs = some (configurationsLen cs) := by
  unfold ConfigurationSubset.slice_total_len
  rw [sliceTotalLenAux_eq ConfigurationSubset.total_len configurationLen cs
    (fun c hc => configurationTotalLen_eq c (h c hc)) 0
    (by simpa [configurationsLen] using hsum)]
  simp [configurationsLen]

theorem setTotalLen_eq (s : DescriptorSet) (h : s.wf) :
    s.total_len = some (setLen s) := by
  obtain ⟨hf, hc, hlen⟩ := h
  unfold DescriptorSet.total_len
  rw [features_slice_total_len s.features hf (by simp [setLen] at hlen; omega)]
  simp only [Option.some_bind]
  rw [show add16 10 (featuresLen s.features) = some (10 + featuresLen s.features) from by
    simp only [add16]; rw [if_pos (by simp [setLen] at hlen; omega)]]
  simp only [Option.some_bind]
  rw [configurations_slice_total_len s.configurations hc (by simp [setLen] at hlen; omega)]
  simp only [Option.some_bind, add16, setLen]
  rw [if_pos (by simp [setLen] at hlen; omega)]

/-! ## Encoder characterization -/

theorem writeName_eq : ∀ (name : List Nat) (st : EncSt), st.pos ≤ st.buf.length →
    writeName name st =
      if st.pos + 2 * name.length ≤ st.buf.length then
        some ⟨writeBytes st.buf st.pos (nameBytes name), st.pos + 2 * name.length⟩
      else none := by
  intro name
  induction name with
  | nil =>
      intro st hpos
      simp only [writeName, nameBytes, List.length_nil, Nat.mul_zero, Nat.add_zero,
        writeBytes]
      rw [if_pos hpos]
  | cons c rest ih =>
      intro st hpos
      simp only [writeName, setByte_eq]
      by_cases h1 : st.pos + 1 ≤ st.buf.length
      · rw [if_pos h1, Option.some_bind]
        rw [writeBytes_length]
        by_cases h2 : st.pos + 1 + 1 ≤ st.buf.length
        · rw [if_pos h2, Option.some_bind,
            ih _ (by simp only [writeBytes_length]; omega)]
          rw [writeBytes_length, writeBytes_length]
          by_cases h3 : st.pos + 2 * (c :: rest).length ≤ st.buf.length
          · rw [if_pos (by simp at h3 ⊢; omega), if_pos h3]
            rw [writeBytes_writeBytes _ _ _ _ _ (by simp),
              writeBytes_writeBytes _ _ _ _ _ (by simp)]
            show _ = some ⟨writeBytes st.buf st.pos (nameBytes (c :: rest)), _⟩
            rw [show nameBytes (c :: rest) =
              [c % 256] ++ [c / 256 % 256] ++ nameBytes rest from rfl]
            congr 2
            simp
            omega
          · rw [if_neg (by simp at h3 ⊢; omega), if_neg h3]
        · rw [if_neg h2, Option.none_bind,
            if_neg (by simp only [List.length_cons]; omega)]
      · rw [if_neg h1, Option.none_bind,
          if_neg (by simp only [List.length_cons]; omega)]

theorem EncSt.buf_mk (b : List Nat) (p : Nat) : (EncSt.mk b p).buf = b := rfl

theorem EncSt.pos_mk (b : List Nat) (p : Nat) : (EncSt.mk b p).pos = p := rfl

theorem feature_descriptor_eq (f : FeatureDescriptor) (hf : f.wf) (st : EncSt) :
    feature_descriptor f st =
      if st.pos + featureLen f ≤ st.buf.length then
        some ⟨writeBytes st.buf st.pos (featureBytes f), st.pos + featureLen f⟩
      else none := by
  cases f with
  | CompatibleId id sub_id =>
      obtain ⟨hid, hsub⟩ := hf
      simp only [feature_descriptor, FeatureDescriptor.total_len,
        FeatureDescriptor.descriptor_type, Option.some_bind, descriptor_start_eq,
        featureLen]
      by_cases h1 : st.pos + 4 ≤ st.buf.length
      · rw [if_pos h1]
        simp only [Option.some_bind, EncSt.buf_mk, EncSt.pos_mk]
        rw [slice_assign_eq _ (st.pos + 4) (st.pos + 4 + 8) 8 id rfl hid.ge]
        simp only [writeBytes_length]
        by_cases h2 : st.pos + 4 + 8 ≤ st.buf.length
        · rw [if_pos h2]
          simp only [Option.some_bind]
          rw [slice_assign_eq _ (st.pos + 4 + 8) (st.pos + 4 + 16) 8 sub_id (by omega)
            hsub.ge]
          simp only [writeBytes_length]
          by_cases h3 : st.pos + 4 + 8 + 8 ≤ st.buf.length
          · rw [if_pos h3, if_pos (by omega)]
            simp only [Option.some_bind]
            rw [List.take_of_length_le hid.le, List.take_of_length_le hsub.le]
            rw [writeBytes_writeBytes _ _ _ _ _
                (by simp only [List.length_append, u16le, List.length_cons,
                  List.length_nil, hid] <;> omega),
              writeBytes_writeBytes _ _ _ _ _
                (by simp only [List.length_append, u16le, List.length_cons,
                  List.length_nil, hid] <;> omega)]
            refine congrArg some ?_
            rw [show st.pos + 4 + 16 = st.pos + 20 from by omega]
            simp only [featureBytes, List.append_assoc]
          · rw [if_neg h3, if_neg (by omega), Option.none_bind]
        · rw [if_neg h2, Option.none_bind, if_neg (by omega)]
      · rw [if_neg h1, if_neg (by omega), Option.none_bind]
  | RegistryProperty dt name data =>
      have hwf : 10 + 2 * name.length + data.length < 65536 := hf
      have hname : name.length % 65536 = name.length := Nat.mod_eq_of_lt (by omega)
      have hdata : data.length % 65536 = data.length := Nat.mod_eq_of_lt (by omega)
      simp only [feature_descriptor]
      rw [featureTotalLen_eq _ hf]
      simp only [FeatureDescriptor.descriptor_type, Option.some_bind, descriptor_start_eq,
        featureLen]
      by_cases h1 : st.pos + 4 ≤ st.buf.length
      · rw [if_pos h1]
        simp only [Option.some_bind, EncSt.buf_mk, EncSt.pos_mk, mul16, hname]
        rw [if_pos (by omega : 2 * name.length < 65536)]
        simp only [Option.some_bind]
        rw [slice_assign_eq _ (st.pos + 4) (st.pos + 4 + 2) 2 (u16le dt.toNat) rfl
          (by simp [u16le])]
        simp only [writeBytes_length]
        by_cases h2 : st.pos + 4 + 2 ≤ st.buf.length
        · rw [if_pos h2]
          simp only [Option.some_bind]
          rw [slice_assign_eq _ (st.pos + 4 + 2) (st.pos + 4 + 4) 2
            (u16le (2 * name.length)) (by omega) (by simp [u16le])]
          simp only [writeBytes_length]
          by_cases h3 : st.pos + 4 + 2 + 2 ≤ st.buf.length
          · rw [if_pos h3]
            simp only [Option.some_bind]
            rw [writeName_eq name _ (by
              simp only [writeBytes_length, EncSt.buf_mk, EncSt.pos_mk]; omega)]
            simp only [writeBytes_length, EncSt.buf_mk, EncSt.pos_mk]
            by_cases h4 : st.pos + 4 + 4 + 2 * name.length ≤ st.buf.length
            · rw [if_pos h4]
              simp only [Option.some_bind, EncSt.buf_mk, EncSt.pos_mk]
              rw [slice_assign_eq _ (st.pos + 4 + 4 + 2 * name.length)
                (st.pos + 4 + 4 + 2 * name.length + 2) 2 (u16le (data.length % 65536))
                rfl (by simp [u16le])]
              simp only [writeBytes_length]
              by_cases h5 : st.pos + 4 + 4 + 2 * name.length + 2 ≤ st.buf.length
              · rw [if_pos h5]
                simp only [Option.some_bind]
                rw [slice_assign_eq _ (st.pos + 4 + 4 + 2 * name.length + 2)
                  (st.pos + 4 + 4 + 2 * name.length + 2 + data.length) data.length data
                  rfl (le_refl _)]
                simp only [writeBytes_length]
                by_cases h6 :
                    st.pos + 4 + 4 + 2 * name.length + 2 + data.length ≤ st.buf.length
                · rw [if_pos h6, if_pos (by omega)]
                  simp only [Option.some_bind]
                  rw [List.take_length, hdata]
                  rw [show (u16le dt.toNat).take 2 = u16le dt.toNat from by simp [u16le],
                    show (u16le (2 * name.length)).take 2 = u16le (2 * name.length) from by
                      simp [u16le],
                    show (u16le data.length).take 2 = u16le data.length from by
                      simp [u16le]]
                  rw [writeBytes_writeBytes _ _ _ _ _
                      (by simp only [List.length_append, u16le, List.length_cons,
                        List.length_nil, nameBytes_length] <;> omega),
                    writeBytes_writeBytes _ _ _ _ _
                      (by simp only [List.length_append, u16le, List.length_cons,
                        List.length_nil, nameBytes_length] <;> omega),
                    writeBytes_writeBytes _ _ _ _ _
                      (by simp only [List.length_append, u16le, List.length_cons,
                        List.length_nil, nameBytes_length] <;> omega),
                    writeBytes_writeBytes _ _ _ _ _
                      (by simp only [List.length_append, u16le, List.length_cons,
                        List.length_nil, nameBytes_length] <;> omega),
                    writeBytes_writeBytes _ _ _ _ _
                      (by simp only [List.length_append, u16le, List.length_cons,
                        List.length_nil, nameBytes_length] <;> omega)]
                  refine congrArg some ?_
                  rw [show st.pos + 4 + 4 + 2 * name.length + 2 + data.length =
                    st.pos + (10 + 2 * name.length + data.length) from by omega]
                  simp only [featureBytes, List.append_assoc]
                · rw [if_neg h6, if_neg (by omega), Option.none_bind]
              · rw [if_neg h5, Option.none_bind, if_neg (by omega)]
            · rw [if_neg h4, Option.none_bind, if_neg (by omega)]
          · rw [if_neg h3, Option.none_bind, if_neg (by omega)]
        · rw [if_neg h2, Option.none_bind, if_neg (by omega)]
      · rw [if_neg h1, if_neg (by omega), Option.none_bind]
  | ResumeTime recovery signaling =>
      simp only [feature_descriptor, FeatureDescriptor.total_len,
        FeatureDescriptor.descriptor_type, Option.some_bind, descriptor_start_eq,
        featureLen]
      by_cases h1 : st.pos + 4 ≤ st.buf.length
      · rw [if_pos h1]
        simp only [Option.some_bind, EncSt.buf_mk, EncSt.pos_mk, setByte_eq,
          writeBytes_length]
        by_cases h2 : st.pos + 4 + 1 ≤ st.buf.length
        · rw [if_pos h2]
          simp only [Option.some_bind, writeBytes_length]
          by_cases h3 : st.pos + 4 + 1 + 1 ≤ st.buf.length
          · rw [if_pos h3, if_pos (by omega)]
            simp only [Option.some_bind]
            rw [writeBytes_writeBytes _ _ _ _ _
                (by simp only [List.length_append, u16le, List.length_cons,
                  List.length_nil] <;> omega),
              writeBytes_writeBytes _ _ _ _ _
                (by simp only [List.length_append, u16le, List.length_cons,
                  List.length_nil] <;> omega)]
            refine congrArg some ?_
            rw [show st.pos + 4 + 1 + 1 = st.pos + 6 from by omega]
            rw [show featureBytes (.ResumeTime recovery signaling) =
              u16le 6 ++ (u16le 5 ++ ([recovery] ++ [signaling])) from by
                simp [featureBytes]]
            simp only [List.append_assoc]
          · rw [if_neg h3, if_neg (by omega), Option.none_bind]
        · rw [if_neg h2, Option.none_bind, if_neg (by omega)]
      · rw [if_neg h1, if_neg (by omega), Option.none_bind]
  | ModelId id =>
      have hid : id.length = 16 := hf
      simp only [feature_descriptor, FeatureDescriptor.total_len,
        FeatureDescriptor.descriptor_type, Option.some_bind, descriptor_start_eq,
        featureLen]
      by_cases h1 : st.pos + 4 ≤ st.buf.length
      · rw [if_pos h1]
        simp only [Option.some_bind, EncSt.buf_mk, EncSt.pos_mk]
        rw [slice_assign_eq _ (st.pos + 4) (st.pos + 4 + 16) 16 id rfl hid.ge]
        simp only [writeBytes_length]
        by_cases h2 : st.pos + 4 + 16 ≤ st.buf.length
        · rw [if_pos h2, if_pos (by omega)]
          simp only [Option.some_bind]
          rw [List.take_of_length_le hid.le]
          rw [writeBytes_writeBytes _ _ _ _ _
            (by simp only [List.length_append, u16le, List.length_cons,
              List.length_nil] <;> omega)]
          refine congrArg some ?_
          rw [show st.pos + 4 + 16 = st.pos + 20 from by omega]
          simp only [featureBytes, List.append_assoc]
        · rw [if_neg h2, if_neg (by omega), Option.none_bind]
      · rw [if_neg h1, if_neg (by omega), Option.none_bind]
  | CcgpDevice =>
      simp only [feature_descriptor, FeatureDescriptor.total_len,
        FeatureDescriptor.descriptor_type, Option.some_bind, descriptor_start_eq,
        featureLen, featureBytes]
      by_cases h1 : st.pos + 4 ≤ st.buf.length
      · rw [if_pos h1]
        rfl
      · rw [if_neg h1]
        rfl
  | VendorRevision revision =>
      simp only [feature_descriptor, FeatureDescriptor.total_len,
        FeatureDescriptor.descriptor_type, Option.some_bind, descriptor_start_eq,
        featureLen]
      by_cases h1 : st.pos + 4 ≤ st.buf.length
      · rw [if_pos h1]
        simp only [Option.some_bind, EncSt.buf_mk, EncSt.pos_mk]
        rw [slice_assign_eq _ (st.pos + 4) (st.pos + 4 + 2) 2 (u16le revision) rfl
          (by simp [u16le])]
        simp only [writeBytes_length]
        by_cases h2 : st.pos + 4 + 2 ≤ st.buf.length
        · rw [if_pos h2, if_pos (by omega)]
          simp only [Option.some_bind]
          rw [show (u16le revision).take 2 = u16le revision from by simp [u16le]]
          rw [writeBytes_writeBytes _ _ _ _ _
            (by simp only [List.length_append, u16le, List.length_cons,
              List.length_nil] <;> omega)]
          refine congrArg some ?_
          rw [show st.pos + 4 + 2 = st.pos + 6 from by omega]
          simp only [featureBytes, List.append_assoc]
        · rw [if_neg h2, if_neg (by omega), Option.none_bind]
      · rw [if_neg h1, if_neg (by omega), Option.none_bind]

/-! ## Sequence and subset characterization -/

theorem featuresLen_cons (f : FeatureDescriptor) (rest : List FeatureDescriptor) :
    featuresLen (f :: rest) = featureLen f + featuresLen rest := by
  simp [featuresLen]

theorem featuresBytes_cons (f : FeatureDescriptor) (rest : List FeatureDescriptor) :
    featuresBytes (f :: rest) = featureBytes f ++ featuresBytes rest := by
  simp [featuresBytes]

theorem functionsLen_cons (fn : FunctionSubset) (rest : List FunctionSubset) :
    functionsLen (fn :: rest) = functionLen fn + functionsLen rest := by
  simp [functionsLen]

theorem functionsBytes_cons (fn : FunctionSubset) (rest : List FunctionSubset) :
    functionsBytes (fn :: rest) = functionBytes fn ++ functionsBytes rest := by
  simp [functionsBytes]

theorem configurationsLen_cons (c : ConfigurationSubset) (rest : List ConfigurationSubset) :
    configurationsLen (c :: rest) = configurationLen c + configurationsLen rest := by
  simp [configurationsLen]

theorem configurationsBytes_cons (c : ConfigurationSubset)
    (rest : List ConfigurationSubset) :
    configurationsBytes (c :: rest) = configurationBytes c ++ configurationsBytes rest := by
  simp [configurationsBytes]

theorem featuresBytes_length (fs : List FeatureDescriptor) (h : ∀ f ∈ fs, f.wf) :
    (featuresBytes fs).length = featuresLen fs := by
  induction fs with
  | nil => rfl
  | cons f rest ih =>
      rw [featuresBytes_cons, featuresLen_cons, List.length_append,
        featureBytes_length f (h f (by simp)), ih (fun g hg => h g (by simp [hg]))]

theorem encFeatures_eq (fs : List FeatureDescriptor) (h : ∀ f ∈ fs, f.wf) :
    ∀ st : EncSt, st.pos ≤ st.buf.length →
    encFeatures fs st =
      if st.pos + featuresLen fs ≤ st.buf.length then
        some ⟨writeBytes st.buf st.pos (featuresBytes fs), st.pos + featuresLen fs⟩
      else none := by
  induction fs with
  | nil =>
      intro st hpos
      simp only [encFeatures, featuresBytes, featuresLen, List.map_nil, List.sum_nil,
        List.flatten_nil, Nat.add_zero, writeBytes]
      rw [if_pos hpos]
  | cons f rest ih =>
      intro st hpos
      simp only [encFeatures]
      rw [featuresLen_cons, featuresBytes_cons]
      rw [feature_descriptor_eq f (h f (by simp)) st]
      by_cases h1 : st.pos + featureLen f ≤ st.buf.length
      · rw [if_pos h1]
        simp only [Option.some_bind]
        rw [ih (fun g hg => h g (by simp [hg])) _
          (by simp only [EncSt.buf_mk, EncSt.pos_mk, writeBytes_length]; omega)]
        simp only [EncSt.buf_mk, EncSt.pos_mk, writeBytes_length]
        by_cases h2 : st.pos + featureLen f + featuresLen rest ≤ st.buf.length
        · rw [if_pos h2, if_pos (by omega)]
          rw [writeBytes_writeBytes _ _ _ _ _
            (by rw [featureBytes_length f (h f (by simp))])]
          refine congrArg some ?_
          rw [show st.pos + featureLen f + featuresLen rest =
            st.pos + (featureLen f + featuresLen rest) from by omega]
        · rw [if_neg h2, if_neg (by omega)]
      · rw [if_neg h1, Option.none_bind, if_neg (by omega)]

theorem functionBytes_length (fn : FunctionSubset) (h : fn.wf) :
    (functionBytes fn).length = functionLen fn := by
  simp only [functionBytes, List.length_append, u16le, List.length_cons, List.length_nil,
    featuresBytes_length fn.features h.1, functionLen] <;> omega

theorem encFunction_eq (fn : FunctionSubset) (h : fn.wf) (st : EncSt) :
    encFunction fn st =
      if st.pos + functionLen fn ≤ st.buf.length then
        some ⟨writeBytes st.buf st.pos (functionBytes fn), st.pos + functionLen fn⟩
      else none := by
  obtain ⟨hfs, hlen⟩ := h
  simp only [encFunction, descriptor_start_eq, functionLen]
  by_cases h1 : st.pos + 4 ≤ st.buf.length
  · rw [if_pos h1]
    simp only [Option.some_bind, EncSt.buf_mk, EncSt.pos_mk, setByte_eq, writeBytes_length]
    by_cases h2 : st.pos + 4 + 1 ≤ st.buf.length
    · rw [if_pos h2]
      simp only [Option.some_bind, writeBytes_length]
      by_cases h3 : st.pos + 4 + 1 + 1 ≤ st.buf.length
      · rw [if_pos h3]
        simp only [Option.some_bind]
        rw [functionTotalLen_eq fn ⟨hfs, hlen⟩]
        simp only [Option.some_bind]
        rw [slice_assign_eq _ (st.pos + 4 + 2) (st.pos + 4 + 4) 2
          (u16le (functionLen fn)) (by omega) (by simp [u16le])]
        simp only [writeBytes_length]
        by_cases h4 : st.pos + 4 + 2 + 2 ≤ st.buf.length
        · rw [if_pos h4]
          simp only [Option.some_bind]
          rw [encFeatures_eq fn.features hfs _
            (by simp only [EncSt.buf_mk, EncSt.pos_mk, writeBytes_length]; omega)]
          simp only [EncSt.buf_mk, EncSt.pos_mk, writeBytes_length]
          by_cases h5 : st.pos + 4 + 4 + featuresLen fn.features ≤ st.buf.length
          · rw [if_pos h5, if_pos (by simp only [functionLen] at hlen; omega)]
            rw [show (u16le (functionLen fn)).take 2 = u16le (functionLen fn) from by
              simp [u16le]]
            rw [writeBytes_writeBytes _ _ _ _ _
                (by simp only [List.length_append, u16le, List.length_cons,
                  List.length_nil] <;> omega),
              writeBytes_writeBytes _ _ _ _ _
                (by simp only [List.length_append, u16le, List.length_cons,
                  List.length_nil] <;> omega),
              writeBytes_writeBytes _ _ _ _ _
                (by simp only [List.length_append, u16le, List.length_cons,
                  List.length_nil] <;> omega),
              writeBytes_writeBytes _ _ _ _ _
                (by simp only [List.length_append, u16le, List.length_cons,
                  List.length_nil] <;> omega)]
            refine congrArg some ?_
            rw [show st.pos + 4 + 4 + featuresLen fn.features =
              st.pos + (8 + featuresLen fn.features) from by omega]
            simp only [functionBytes, functionLen, List.append_assoc, List.cons_append,
              List.singleton_append, List.nil_append]
          · rw [if_neg h5, if_neg (by simp only [functionLen] at hlen; omega)]
        · rw [if_neg h4, Option.none_bind, if_neg (by omega)]
      · rw [if_neg h3, Option.none_bind, if_neg (by omega)]
    · rw [if_neg h2, Option.none_bind, if_neg (by omega)]
  · rw [if_neg h1, if_neg (by omega), Option.none_bind]

theorem functionsBytes_length (fns : List FunctionSubset) (h : ∀ fn ∈ fns, fn.wf) :
    (functionsBytes fns).length = functionsLen fns := by
  induction fns with
  | nil => rfl
  | cons fn rest ih =>
      rw [functionsBytes_cons, functionsLen_cons, List.length_append,
        functionBytes_length fn (h fn (by simp)), ih (fun g hg => h g (by simp [hg]))]

theorem encFunctions_eq (fns : List FunctionSubset) (h : ∀ fn ∈ fns, fn.wf) :
    ∀ st : EncSt, st.pos ≤ st.buf.length →
    encFunctions fns st =
      if st.pos + functionsLen fns ≤ st.buf.length then
        some ⟨writeBytes st.buf st.pos (functionsBytes fns), st.pos + functionsLen fns⟩
      else none := by
  induction fns with
  | nil =>
      intro st hpos
      simp only [encFunctions, functionsBytes, functionsLen, List.map_nil, List.sum_nil,
        List.flatten_nil, Nat.add_zero, writeBytes]
      rw [if_pos hpos]
  | cons fn rest ih =>
      intro st hpos
      simp only [encFunctions]
      rw [functionsLen_cons, functionsBytes_cons]
      rw [encFunction_eq fn (h fn (by simp)) st]
      by_cases h1 : st.pos + functionLen fn ≤ st.buf.length
      · rw [if_pos h1]
        simp only [Option.some_bind]
        rw [ih (fun g hg => h g (by simp [hg])) _
          (by simp only [EncSt.buf_mk, EncSt.pos_mk, writeBytes_length]; omega)]
        simp only [EncSt.buf_mk, EncSt.pos_mk, writeBytes_length]
        by_cases h2 : st.pos + functionLen fn + functionsLen rest ≤ st.buf.length
        · rw [if_pos h2, if_pos (by omega)]
          rw [writeBytes_writeBytes _ _ _ _ _
            (by rw [functionBytes_length fn (h fn (by simp))])]
          refine congrArg some ?_
          rw [show st.pos + functionLen fn + functionsLen rest =
            st.pos + (functionLen fn + functionsLen rest) from by omega]
        · rw [if_neg h2, if_neg (by omega)]
      · rw [if_neg h1, Option.none_bind, if_neg (by omega)]

theorem configurationBytes_length (c : ConfigurationSubset) (h : c.wf) :
    (configurationBytes c).length = configurationLen c := by
  simp only [configurationBytes, List.length_append, u16le, List.length_cons,
    List.length_nil, featuresBytes_length c.features h.1,
    functionsBytes_length c.functions h.2.1, configurationLen] <;> omega

theorem encConfiguration_eq (c : ConfigurationSubset) (h : c.wf) (st : EncSt) :
    encConfiguration c st =
      if st.pos + configurationLen c ≤ st.buf.length then
        some ⟨writeBytes st.buf st.pos (configurationBytes c), st.pos + configurationLen c⟩
      else none := by
  obtain ⟨hfs, hfns, hlen⟩ := h
  simp only [encConfiguration, descriptor_start_eq, configurationLen]
  by_cases h1 : st.pos + 4 ≤ st.buf.length
  · rw [if_pos h1]
    simp only [Option.some_bind, EncSt.buf_mk, EncSt.pos_mk, setByte_eq, writeBytes_length]
    by_cases h2 : st.pos + 4 + 1 ≤ st.buf.length
    · rw [if_pos h2]
      simp only [Option.some_bind, writeBytes_length]
      by_cases h3 : st.pos + 4 + 1 + 1 ≤ st.buf.length
      · rw [if_pos h3]
        simp only [Option.some_bind]
        rw [configurationTotalLen_eq c ⟨hfs, hfns, hlen⟩]
        simp only [Option.some_bind]
        rw [slice_assign_eq _ (st.pos + 4 + 2) (st.pos + 4 + 4) 2
          (u16le (configurationLen c)) (by omega) (by simp [u16le])]
        simp only [writeBytes_length]
        by_cases h4 : st.pos + 4 + 2 + 2 ≤ st.buf.length
        · rw [if_pos h4]
          simp only [Option.some_bind]
          rw [encFeatures_eq c.features hfs _
            (by simp only [EncSt.buf_mk, EncSt.pos_mk, writeBytes_length]; omega)]
          simp only [EncSt.buf_mk, EncSt.pos_mk, writeBytes_length]
          by_cases h5 : st.pos + 4 + 4 + featuresLen c.features ≤ st.buf.length
          · rw [if_pos h5]
            simp only [Option.some_bind]
            rw [encFunctions_eq c.functions hfns _
              (by simp only [EncSt.buf_mk, EncSt.pos_mk, writeBytes_length]; omega)]
            simp only [EncSt.buf_mk, EncSt.pos_mk, writeBytes_length]
            by_cases h6 : st.pos + 4 + 4 + featuresLen c.features +
                functionsLen c.functions ≤ st.buf.length
            · rw [if_pos h6, if_pos (by simp only [configurationLen] at hlen; omega)]
              rw [show (u16le (configurationLen c)).take 2 = u16le (configurationLen c)
                from by simp [u16le]]
              rw [writeBytes_writeBytes _ _ _ _ _
                  (by simp only [List.length_append, u16le, List.length_cons,
                    List.length_nil, featuresBytes_length c.features hfs,
                    functionsBytes_length c.functions hfns] <;> omega),
                writeBytes_writeBytes _ _ _ _ _
                  (by simp only [List.length_append, u16le, List.length_cons,
                    List.length_nil, featuresBytes_length c.features hfs,
                    functionsBytes_length c.functions hfns] <;> omega),
                writeBytes_writeBytes _ _ _ _ _
                  (by simp only [List.length_append, u16le, List.length_cons,
                    List.length_nil, featuresBytes_length c.features hfs,
                    functionsBytes_length c.functions hfns] <;> omega),
                writeBytes_writeBytes _ _ _ _ _
                  (by simp only [List.length_append, u16le, List.length_cons,
                    List.length_nil, featuresBytes_length c.features hfs,
                    functionsBytes_length c.functions hfns] <;> omega),
                writeBytes_writeBytes _ _ _ _ _
                  (by simp only [List.length_append, u16le, List.length_cons,
                    List.length_nil, featuresBytes_length c.features hfs,
                    functionsBytes_length c.functions hfns] <;> omega)]
              refine congrArg some ?_
              rw [show st.pos + 4 + 4 + featuresLen c.features + functionsLen c.functions =
                st.pos + (8 + featuresLen c.features + functionsLen c.functions) from by
                  omega]
              simp only [configurationBytes, configurationLen, List.append_assoc,
                List.cons_append, List.singleton_append, List.nil_append]
            · rw [if_neg h6,
                if_neg (by simp only [configurationLen] at hlen; omega)]
          · rw [if_neg h5, Option.none_bind,
              if_neg (by simp only [configurationLen] at hlen; omega)]
        · rw [if_neg h4, Option.none_bind, if_neg (by omega)]
      · rw [if_neg h3, Option.none_bind, if_neg (by omega)]
    · rw [if_neg h2, Option.none_bind, if_neg (by omega)]
  · rw [if_neg h1, if_neg (by omega), Option.none_bind]

theorem configurationsBytes_length (cs : List ConfigurationSubset)
    (h : ∀ c ∈ cs, c.wf) :
    (configurationsBytes cs).length = configurationsLen cs := by
  induction cs with
  | nil => rfl
  | cons c rest ih =>
      rw [configurationsBytes_cons, configurationsLen_cons, List.length_append,
        configurationBytes_length c (h c (by simp)), ih (fun g hg => h g (by simp [hg]))]

theorem encConfigurations_eq (cs : List ConfigurationSubset) (h : ∀ c ∈ cs, c.wf) :
    ∀ st : EncSt, st.pos ≤ st.buf.length →
    encConfigurations cs st =
      if st.pos + configurationsLen cs ≤ st.buf.length then
        some ⟨writeBytes st.buf st.pos (configurationsBytes cs),
          st.pos + configurationsLen cs⟩
      else none := by
  induction cs with
  | nil =>
      intro st hpos
      simp only [encConfigurations, configurationsBytes, configurationsLen, List.map_nil,
        List.sum_nil, List.flatten_nil, Nat.add_zero, writeBytes]
      rw [if_pos hpos]
  | cons c rest ih =>
      intro st hpos
      simp only [encConfigurations]
      rw [configurationsLen_cons, configurationsBytes_cons]
      rw [encConfiguration_eq c (h c (by simp)) st]
      by_cases h1 : st.pos + configurationLen c ≤ st.buf.length
      · rw [if_pos h1]
        simp only [Option.some_bind]
        rw [ih (fun g hg => h g (by simp [hg])) _
          (by simp only [EncSt.buf_mk, EncSt.pos_mk, writeBytes_length]; omega)]
        simp only [EncSt.buf_mk, EncSt.pos_mk, writeBytes_length]
        by_cases h2 : st.pos + configurationLen c + configurationsLen rest ≤ st.buf.length
        · rw [if_pos h2, if_pos (by omega)]
          rw [writeBytes_writeBytes _ _ _ _ _
            (by rw [configurationBytes_length c (h c (by simp))])]
          refine congrArg some ?_
          rw [show st.pos + configurationLen c + configurationsLen rest =
            st.pos + (configurationLen c + configurationsLen rest) from by omega]
        · rw [if_neg h2, if_neg (by omega)]
      · rw [if_neg h1, Option.none_bind, if_neg (by omega)]

/-! ## The descriptor set master theorem -/

theorem setBytes_length (s : DescriptorSet) (h : s.wf) :
    (setBytes s).length = setLen s := by
  simp only [setBytes, List.length_append, u16le, u32le, List.length_cons,
    List.length_nil, featuresBytes_length s.features h.1,
    configurationsBytes_length s.configurations h.2.1, setLen] <;> omega

theorem WindowsVersion.bytes_eq (v : Nat) (h : WindowsVersion.MINIMAL ≤ v) :
    WindowsVersion.bytes v = some (u32le v) := by
  simp only [WindowsVersion.bytes, WindowsVersion.check_minimal]
  rw [if_neg (by omega)]
  rfl

theorem descriptorSt_eq (s : DescriptorSet) (hwf : s.wf)
    (hver : WindowsVersion.MINIMAL ≤ s.version) (N : Nat) :
    s.descriptorSt N =
      if setLen s ≤ N then
        some ⟨writeBytes (List.replicate N 0) 0 (setBytes s), setLen s⟩
      else none := by
  obtain ⟨hfs, hcs, hlen⟩ := hwf
  simp only [DescriptorSet.descriptorSt, descriptor_start_eq, EncSt.buf_mk, EncSt.pos_mk,
    List.length_replicate, Nat.zero_add]
  by_cases h1 : 4 ≤ N
  · rw [if_pos h1]
    simp only [Option.some_bind, EncSt.buf_mk, EncSt.pos_mk]
    rw [setTotalLen_eq s ⟨hfs, hcs, hlen⟩]
    simp only [Option.some_bind]
    rw [WindowsVersion.bytes_eq s.version hver]
    simp only [Option.some_bind]
    rw [slice_assign_eq _ 4 8 4 (u32le s.version) (by omega) (by simp [u32le])]
    simp only [writeBytes_length, List.length_replicate]
    by_cases h2 : 4 + 4 ≤ N
    · rw [if_pos h2]
      simp only [Option.some_bind]
      rw [slice_assign_eq _ 8 10 2 (u16le (setLen s)) (by omega) (by simp [u16le])]
      simp only [writeBytes_length, List.length_replicate]
      by_cases h3 : 8 + 2 ≤ N
      · rw [if_pos h3]
        simp only [Option.some_bind]
        rw [encFeatures_eq s.features hfs _
          (by simp only [EncSt.buf_mk, EncSt.pos_mk, writeBytes_length,
            List.length_replicate]; omega)]
        simp only [EncSt.buf_mk, EncSt.pos_mk, writeBytes_length, List.length_replicate]
        by_cases h4 : 0 + 4 + 6 + featuresLen s.features ≤ N
        · rw [if_pos h4]
          simp only [Option.some_bind]
          rw [encConfigurations_eq s.configurations hcs _
            (by simp only [EncSt.buf_mk, EncSt.pos_mk, writeBytes_length,
              List.length_replicate]; omega)]
          simp only [EncSt.buf_mk, EncSt.pos_mk, writeBytes_length, List.length_replicate]
          by_cases h5 : 0 + 4 + 6 + featuresLen s.features +
              configurationsLen s.configurations ≤ N
          · rw [if_pos h5, if_pos (by simp only [setLen]; omega)]
            rw [show (u32le s.version).take 4 = u32le s.version from by simp [u32le],
              show (u16le (setLen s)).take 2 = u16le (setLen s) from by simp [u16le]]
            rw [writeBytes_writeBytes _ _ _ _ _
                (by simp only [List.length_append, u16le, u32le, List.length_cons,
                  List.length_nil, featuresBytes_length s.features hfs,
                  configurationsBytes_length s.configurations hcs] <;> omega),
              writeBytes_writeBytes _ _ _ _ _
                (by simp only [List.length_append, u16le, u32le, List.length_cons,
                  List.length_nil, featuresBytes_length s.features hfs,
                  configurationsBytes_length s.configurations hcs] <;> omega),
              writeBytes_writeBytes _ _ _ _ _
                (by simp only [List.length_append, u16le, u32le, List.length_cons,
                  List.length_nil, featuresBytes_length s.features hfs,
                  configurationsBytes_length s.configurations hcs] <;> omega),
              writeBytes_writeBytes _ _ _ _ _
                (by simp only [List.length_append, u16le, u32le, List.length_cons,
                  List.length_nil, featuresBytes_length s.features hfs,
                  configurationsBytes_length s.configurations hcs] <;> omega)]
            refine congrArg some ?_
            rw [show 0 + 4 + 6 + featuresLen s.features +
              configurationsLen s.configurations = setLen s from by
                simp only [setLen] <;> omega]
            simp only [setBytes, List.append_assoc]
          · rw [if_neg h5, if_neg (by simp only [setLen]; omega)]
        · rw [if_neg h4, Option.none_bind, if_neg (by simp only [setLen]; omega)]
      · rw [if_neg h3, Option.none_bind, if_neg (by simp only [setLen]; omega)]
    · rw [if_neg h2, Option.none_bind, if_neg (by simp only [setLen]; omega)]
  · rw [if_neg h1, if_neg (by simp only [setLen]; omega), Option.none_bind]

theorem descriptor_eq (s : DescriptorSet) (hwf : s.wf)
    (hver : WindowsVersion.MINIMAL ≤ s.version) (N : Nat) :
    s.descriptor N =
      if setLen s ≤ N then
        some (setBytes s ++ List.replicate (N - setLen s) 0)
      else none := by
  unfold DescriptorSet.descriptor
  rw [descriptorSt_eq s hwf hver N]
  by_cases h : setLen s ≤ N
  · rw [if_pos h, if_pos h]
    show some (writeBytes (List.replicate N 0) 0 (setBytes s)) = _
    refine congrArg some ?_
    rw [writeBytes_spec (setBytes s) 0 (List.replicate N 0)
      (by simp only [List.length_replicate, setBytes_length s hwf]; omega)]
    rw [List.take_zero, List.nil_append, List.drop_replicate, Nat.zero_add,
      setBytes_length s hwf]
  · rw [if_neg h, if_neg h]
    rfl

/-! ## The capabilities encoder master theorem -/

theorem capInfoBytes_length (info : CapabilityInfo) (i : Nat) :
    (capInfoBytes info i).length = 8 := by
  simp [capInfoBytes, u32le, u16le]

theorem capInfosBytes_cons (info : CapabilityInfo) (rest : List CapabilityInfo) (i : Nat) :
    capInfosBytes (info :: rest) i = capInfoBytes info i ++ capInfosBytes rest (i + 1) :=
  rfl

theorem capInfosBytes_length : ∀ (infos : List CapabilityInfo) (i : Nat),
    (capInfosBytes infos i).length = 8 * infos.length := by
  intro infos
  induction infos with
  | nil => intro i; rfl
  | cons info rest ih =>
      intro i
      rw [capInfosBytes_cons, List.length_append, capInfoBytes_length, ih]
      simp only [List.length_cons]
      omega

theorem capLoop_eq (infos : List CapabilityInfo)
    (h : ∀ info ∈ infos,
      info.descriptors.wf ∧ WindowsVersion.MINIMAL ≤ info.descriptors.version) :
    ∀ (i : Nat) (st : EncSt), st.pos ≤ st.buf.length →
    capLoop infos i st =
      if st.pos + 8 * infos.length ≤ st.buf.length then
        some ⟨writeBytes st.buf st.pos (capInfosBytes infos i),
          st.pos + 8 * infos.length⟩
      else none := by
  induction infos with
  | nil =>
      intro i st hpos
      simp only [capLoop, capInfosBytes, List.length_nil, Nat.mul_zero, Nat.add_zero,
        writeBytes]
      rw [if_pos hpos]
  | cons info rest ih =>
      intro i st hpos
      obtain ⟨hwf, hver⟩ := h info (by simp)
      simp only [capLoop]
      rw [WindowsVersion.bytes_eq _ hver]
      simp only [Option.some_bind]
      rw [setTotalLen_eq _ hwf]
      simp only [Option.some_bind]
      rw [slice_assign_eq _ st.pos (st.pos + 4) 4 (u32le info.descriptors.version) rfl
        (by simp [u32le])]
      by_cases h1 : st.pos + 4 ≤ st.buf.length
      · rw [if_pos h1]
        simp only [Option.some_bind]
        rw [slice_assign_eq _ (st.pos + 4) (st.pos + 6) 2
          (u16le (setLen info.descriptors)) (by omega) (by simp [u16le])]
        simp only [writeBytes_length]
        by_cases h2 : st.pos + 4 + 2 ≤ st.buf.length
        · rw [if_pos h2]
          simp only [Option.some_bind, setByte_eq, writeBytes_length]
          by_cases h3 : st.pos + 6 + 1 ≤ st.buf.length
          · rw [if_pos h3]
            simp only [Option.some_bind, writeBytes_length]
            by_cases h4 : st.pos + 7 + 1 ≤ st.buf.length
            · rw [if_pos h4]
              simp only [Option.some_bind]
              rw [ih (fun g hg => h g (by simp [hg])) (i + 1) _
                (by simp only [EncSt.buf_mk, EncSt.pos_mk, writeBytes_length]; omega)]
              simp only [EncSt.buf_mk, EncSt.pos_mk, writeBytes_length]
              by_cases h5 : st.pos + 8 + 8 * rest.length ≤ st.buf.length
              · rw [if_pos h5, if_pos (by simp only [List.length_cons]; omega)]
                rw [show (u32le info.descriptors.version).take 4 =
                  u32le info.descriptors.version from by simp [u32le],
                  show (u16le (setLen info.descriptors)).take 2 =
                    u16le (setLen info.descriptors) from by simp [u16le]]
                rw [writeBytes_writeBytes _ _ _ _ _
                    (by simp only [List.length_append, u32le, u16le, List.length_cons,
                      List.length_nil, capInfosBytes_length] <;> omega),
                  writeBytes_writeBytes _ _ _ _ _
                    (by simp only [List.length_append, u32le, u16le, List.length_cons,
                      List.length_nil, capInfosBytes_length] <;> omega),
                  writeBytes_writeBytes _ _ _ _ _
                    (by simp only [List.length_append, u32le, u16le, List.length_cons,
                      List.length_nil, capInfosBytes_length] <;> omega),
                  writeBytes_writeBytes _ _ _ _ _
                    (by simp only [List.length_append, u32le, u16le, List.length_cons,
                      List.length_nil, capInfosBytes_length] <;> omega)]
                refine congrArg some ?_
                rw [show st.pos + 8 + 8 * rest.length =
                  st.pos + 8 * (info :: rest).length from by
                    simp only [List.length_cons]; omega]
                rw [capInfosBytes_cons]
                simp only [capInfoBytes, List.append_assoc, List.cons_append,
                  List.singleton_append, List.nil_append]
              · rw [if_neg h5, if_neg (by simp only [List.length_cons]; omega)]
            · rw [if_neg h4, Option.none_bind,
                if_neg (by simp only [List.length_cons]; omega)]
          · rw [if_neg h3, Option.none_bind,
              if_neg (by simp only [List.length_cons]; omega)]
        · rw [if_neg h2, Option.none_bind,
            if_neg (by simp only [List.length_cons]; omega)]
      · rw [if_neg h1, Option.none_bind,
          if_neg (by simp only [List.length_cons]; omega)]

theorem CAPABILITY_ID_length : CAPABILITY_ID.length = 16 := rfl

set_option maxHeartbeats 2000000 in
theorem descriptor_data_eq (c : Capabilities) (h : c.wf) (N : Nat) :
    c.descriptor_data N =
      if 17 + 8 * c.infos.length ≤ N then
        some ((0 :: CAPABILITY_ID) ++ capInfosBytes c.infos 0 ++
          List.replicate (N - (17 + 8 * c.infos.length)) 0)
      else none := by
  simp only [Capabilities.descriptor_data, setByte_eq, List.length_replicate]
  by_cases h1 : 0 + 1 ≤ N
  · rw [if_pos h1]
    simp only [Option.some_bind]
    rw [slice_assign_eq _ 1 17 16 CAPABILITY_ID (by omega)
      (le_of_eq CAPABILITY_ID_length.symm)]
    simp only [writeBytes_length, List.length_replicate]
    by_cases h2 : 1 + 16 ≤ N
    · rw [if_pos h2]
      simp only [Option.some_bind]
      rw [capLoop_eq c.infos h 0 _
        (by simp only [EncSt.buf_mk, EncSt.pos_mk, writeBytes_length,
          List.length_replicate]; omega)]
      simp only [EncSt.buf_mk, EncSt.pos_mk, writeBytes_length, List.length_replicate]
      by_cases h3 : 17 + 8 * c.infos.length ≤ N
      · rw [if_pos h3, if_pos h3]
        rw [List.take_of_length_le (le_of_eq CAPABILITY_ID_length)]
        have e1 : writeBytes (writeBytes (List.replicate N 0) 0 [0]) 1 CAPABILITY_ID =
            writeBytes (List.replicate N 0) 0 ([0] ++ CAPABILITY_ID) :=
          (writeBytes_writeBytes (List.replicate N 0) 0 [0] CAPABILITY_ID 1 rfl).symm.symm
        rw [e1]
        have e2 : writeBytes (writeBytes (List.replicate N 0) 0 ([0] ++ CAPABILITY_ID))
              17 (capInfosBytes c.infos 0) =
            writeBytes (List.replicate N 0) 0
              (([0] ++ CAPABILITY_ID) ++ capInfosBytes c.infos 0) :=
          writeBytes_writeBytes (List.replicate N 0) 0 ([0] ++ CAPABILITY_ID)
            (capInfosBytes c.infos 0) 17 (by simp [CAPABILITY_ID])
        rw [e2]
        refine congrArg some ?_
        rw [writeBytes_spec _ 0 (List.replicate N 0)
          (by simp only [List.length_replicate, List.length_append, List.length_cons,
            List.length_nil, CAPABILITY_ID_length, capInfosBytes_length]; omega)]
        rw [List.take_zero, List.nil_append, List.drop_replicate, Nat.zero_add]
        have hlen17 : ([0] ++ CAPABILITY_ID ++ capInfosBytes c.infos 0).length =
            17 + 8 * c.infos.length := by
          simp only [List.length_append, List.length_cons, List.length_nil,
            CAPABILITY_ID_length, capInfosBytes_length] <;> omega
        rw [hlen17]
        simp only [List.append_assoc, List.cons_append, List.singleton_append,
          List.nil_append]
      · rw [if_neg h3, if_neg h3]
        rfl
    · rw [if_neg h2, Option.none_bind, if_neg (by omega)]
  · rw [if_neg h1, Option.none_bind, if_neg (by omega)]

theorem capabilitiesTotalLen_eq (c : Capabilities) (hN : c.infos.length ≤ 29) :
    c.total_len = some (20 + 8 * c.infos.length) := by
  have hm : c.infos.length % 256 = c.infos.length := Nat.mod_eq_of_lt (by omega)
  simp only [Capabilities.total_len, mul8, hm]
  rw [if_pos (by omega)]
  simp only [Option.some_bind, add8]
  rw [if_pos (by omega)]
  refine congrArg some ?_
  omega

theorem capabilitiesDataLen_eq (c : Capabilities) (hN : c.infos.length ≤ 29) :
    c.data_len = some (17 + 8 * c.infos.length) := by
  unfold Capabilities.data_len
  rw [capabilitiesTotalLen_eq c hN]
  show some (20 + 8 * c.infos.length - 3) = _
  refine congrArg some ?_
  omega

/-! ## Version-floor failure -/

theorem bind_none_of {α β : Type} (o : Option α) (f : α → Option β)
    (h : ∀ a, f a = none) : o.bind f = none := by
  cases o with
  | none => rfl
  | some a => exact h a

theorem WindowsVersion.bytes_fail (v : Nat) (h : v < WindowsVersion.MINIMAL) :
    WindowsVersion.bytes v = none := by
  simp only [WindowsVersion.bytes, WindowsVersion.check_minimal]
  rw [if_pos h]
  rfl

theorem descriptor_version_fail (s : DescriptorSet)
    (h : s.version < WindowsVersion.MINIMAL) (N : Nat) :
    s.descriptor N = none := by
  unfold DescriptorSet.descriptor DescriptorSet.descriptorSt
  rw [show ((descriptor_start ⟨List.replicate N 0, 0⟩ 10 0).bind fun st1 =>
      (s.total_len).bind fun tl =>
      (WindowsVersion.bytes s.version).bind fun ver =>
      (slice_assign st1.buf 4 8 ver 0 4).bind fun b1 =>
      (slice_assign b1 8 10 (u16le tl) 0 2).bind fun b2 =>
      (encFeatures s.features ⟨b2, st1.pos + 6⟩).bind fun st2 =>
      encConfigurations s.configurations st2) = none from ?_]
  · rfl
  · apply bind_none_of
    intro st1
    apply bind_none_of
    intro tl
    rw [WindowsVersion.bytes_fail s.version h]
    rfl

theorem capLoop_version_fail : ∀ (infos : List CapabilityInfo),
    (∃ info ∈ infos, info.descriptors.version < WindowsVersion.MINIMAL) →
    ∀ (i : Nat) (st : EncSt), capLoop infos i st = none := by
  intro infos
  induction infos with
  | nil =>
      intro hex i st
      obtain ⟨bad, hmem, _⟩ := hex
      exact absurd hmem (List.not_mem_nil bad)
  | cons info rest ih =>
      intro hex i st
      by_cases hv : info.descriptors.version < WindowsVersion.MINIMAL
      · simp only [capLoop]
        rw [WindowsVersion.bytes_fail _ hv]
        rfl
      · obtain ⟨bad, hmem, hbad⟩ := hex
        have hbadrest : bad ∈ rest := by
          rcases List.mem_cons.mp hmem with heq | hr
          · exact absurd (heq ▸ hbad) hv
          · exact hr
        simp only [capLoop]
        apply bind_none_of
        intro ver
        apply bind_none_of
        intro tl
        apply bind_none_of
        intro b1
        apply bind_none_of
        intro b2
        apply bind_none_of
        intro b3
        apply bind_none_of
        intro b4
        exact ih ⟨bad, hbadrest, hbad⟩ (i + 1) _

theorem descriptor_data_version_fail (c : Capabilities)
    (h : ∃ info ∈ c.infos, info.descriptors.version < WindowsVersion.MINIMAL) (N : Nat) :
    c.descriptor_data N = none := by
  unfold Capabilities.descriptor_data
  apply bind_none_of
  intro b0
  apply bind_none_of
  intro b1
  rw [capLoop_version_fail c.infos h 0 _]
  rfl

/-! ## Vendor code extraction -/

theorem capInfosBytes_get : ∀ (infos : List CapabilityInfo) (j i : Nat),
    i < infos.length →
    (capInfosBytes infos j).get? (8 * i + 6) = some ((j + i + 1) % 256) := by
  intro infos
  induction infos with
  | nil => intro j i h; simp at h
  | cons info rest ih =>
      intro j i h
      rw [capInfosBytes_cons]
      cases i with
      | zero =>
          rw [List.get?_append (by rw [capInfoBytes_length]; omega)]
          simp [capInfoBytes, u32le, u16le]
      | succ k =>
          rw [List.get?_append_right (by rw [capInfoBytes_length]; omega)]
          rw [capInfoBytes_length]
          rw [show 8 * (k + 1) + 6 - 8 = 8 * k + 6 from by omega]
          rw [ih (j + 1) k (by simp only [List.length_cons] at h; omega)]
          refine congrArg some ?_
          congr 1
          omega

theorem descriptor_data_vendor_code (c : Capabilities) (h : c.wf)
    (hN : c.infos.length ≤ 29) (i : Nat) (hi : i < c.infos.length) :
    (c.descriptor_data (17 + 8 * c.infos.length)).bind
      (fun l => l.get? (17 + (8 * i + 6))) = some (i + 1) := by
  rw [descriptor_data_eq c h (17 + 8 * c.infos.length)]
  rw [if_pos (le_refl _)]
  simp only [Option.some_bind, Nat.sub_self, List.replicate, List.append_nil]
  rw [List.get?_append_right (by simp [CAPABILITY_ID] <;> omega)]
  rw [show (0 :: CAPABILITY_ID).length = 17 from rfl]
  rw [show 17 + (8 * i + 6) - 17 = 8 * i + 6 from by omega]
  rw [capInfosBytes_get c.infos 0 i hi]
  refine congrArg some ?_
  rw [Nat.zero_add, Nat.mod_eq_of_lt (by omega)]

/-! ## Claim theorems -/

/-- C1: for every well-formed `DescriptorSet` (features and subsets of any
shape, including empty ones) whose version is at or above the floor,
`DescriptorSet::descriptor::<N>()` with `N = DescriptorSet::size()` writes
exactly `N` bytes: the size calculator returns `setLen s`, encoding
completes, and the final write cursor equals the buffer length, which
equals `N`. -/
theorem c1_encode_size_agreement (s : DescriptorSet) (hwf : s.wf)
    (hver : WindowsVersion.MINIMAL ≤ s.version) :
    s.size = some (setLen s) ∧
    ∃ st : EncSt, s.descriptorSt (setLen s) = some st ∧
      st.pos = st.buf.length ∧ st.buf.length = setLen s := by
  refine ⟨setTotalLen_eq s hwf, ?_⟩
  refine ⟨⟨writeBytes (List.replicate (setLen s) 0) 0 (setBytes s), setLen s⟩, ?_, ?_, ?_⟩
  · rw [descriptorSt_eq s hwf hver (setLen s), if_pos (le_refl _)]
  · simp only [EncSt.buf_mk, EncSt.pos_mk, writeBytes_length, List.length_replicate]
  · simp only [EncSt.buf_mk, writeBytes_length, List.length_replicate]

/-- C1 witness: a concrete descriptor set (one configuration with one
`ResumeTime` feature) whose size calculator yields 32, on which the encoder
completes with cursor 32 on a 32-byte buffer. -/
theorem c1_encode_size_agreement_witness :
    (DescriptorSet.mk 0x06030000 []
        [⟨0, [], [⟨1, [.ResumeTime 1 2]⟩]⟩]).size = some 32 ∧
    ∃ st : EncSt,
      (DescriptorSet.mk 0x06030000 []
        [⟨0, [], [⟨1, [.ResumeTime 1 2]⟩]⟩]).descriptorSt 32 = some st ∧
      st.pos = st.buf.length ∧ st.buf.length = 32 := by
  have h := c1_encode_size_agreement
    (DescriptorSet.mk 0x06030000 [] [⟨0, [], [⟨1, [.ResumeTime 1 2]⟩]⟩])
    (by decide) (by decide)
  rw [show setLen (DescriptorSet.mk 0x06030000 []
    [⟨0, [], [⟨1, [.ResumeTime 1 2]⟩]⟩]) = 32 from by decide] at h
  exact h

set_option maxRecDepth 10000 in
/-- C2: the crate's WinUSB example descriptor set (version floor, one
configuration subset with id 0, one function subset with first interface 1,
a CompatibleId `WINUSB\x00\x00` with zero sub-id and a REG_MULTI_SZ
`DeviceInterfaceGUIDs` registry property carrying the UTF-16LE GUID string)
encodes through `DescriptorSet::descriptor` to exactly the 178 (0xB2) bytes
of the published field-by-field layout. -/
theorem c2_winusb_example_bytes :
    EXAMPLE_SET.descriptor 178 = some exampleSetBytes ∧
      exampleSetBytes.length = 178 := by
  constructor
  · decide
  · decide

/-- C3: for every well-formed `Capabilities` with at most 29 entries,
`data_len` is the 20 + 8·N total minus the 3 leading BOS bytes, and
`descriptor_data` at that length writes the reserved zero byte, the 16-byte
platform capability UUID, and one 8-byte record per entry in declared order
(32-bit LE version, 16-bit LE descriptor set length, vendor code = 1-based
position, alternate-enumeration command). -/
theorem c3_capability_layout (c : Capabilities) (hwf : c.wf)
    (hN : c.infos.length ≤ 29) :
    c.data_len = some (17 + 8 * c.infos.length) ∧
    c.descriptor_data (17 + 8 * c.infos.length) =
      some ((0 :: CAPABILITY_ID) ++ capInfosBytes c.infos 0) := by
  refine ⟨capabilitiesDataLen_eq c hN, ?_⟩
  rw [descriptor_data_eq c hwf (17 + 8 * c.infos.length), if_pos (le_refl _)]
  simp only [Nat.sub_self, List.replicate, List.append_nil]

/-- C3 witness: a one-entry capability set over an empty descriptor set has
`data_len` 25 and the 25-byte block `0`, the UUID, then the single record. -/
theorem c3_capability_layout_witness :
    (Capabilities.mk [⟨⟨0x06030000, [], []⟩, 0⟩]).data_len = some 25 ∧
    (Capabilities.mk [⟨⟨0x06030000, [], []⟩, 0⟩]).descriptor_data 25 =
      some ((0 :: CAPABILITY_ID) ++
        capInfosBytes (Capabilities.mk [⟨⟨0x06030000, [], []⟩, 0⟩]).infos 0) := by
  have h := c3_capability_layout (Capabilities.mk [⟨⟨0x06030000, [], []⟩, 0⟩])
    (by decide) (by decide)
  rw [show 17 + 8 * (Capabilities.mk
    [⟨⟨0x06030000, [], []⟩, 0⟩]).infos.length = 25 from by decide] at h
  exact h

/-- C4: for a well-formed `Capabilities` with N ≤ 29 entries, the i-th
8-byte record of the encoded capability block carries vendor code i + 1,
and `MsOsUsbClass::control_in`, for a Vendor-type Device-recipient request
with index 0x07 and selector i + 1, accepts the transfer with exactly the
i-th pre-built static descriptor set buffer. -/
theorem c4_vendor_code_correlation (c : Capabilities) (hwf : c.wf)
    (hN : c.infos.length ≤ 29) (i : Nat) (hi : i < c.infos.length)
    (sets : List (List Nat)) (hs : i < sets.length) (v : Nat) :
    (c.descriptor_data (17 + 8 * c.infos.length)).bind
        (fun l => l.get? (17 + (8 * i + 6))) = some (i + 1) ∧
    MsOsUsbClass.control_in sets
        ⟨RequestType.Vendor, Recipient.Device, i + 1, v, DescriptorIndex.Descriptor⟩ =
      XferOutcome.acceptedWithStatic (sets.get ⟨i, hs⟩) := by
  refine ⟨descriptor_data_vendor_code c hwf hN i hi, ?_⟩
  simp only [MsOsUsbClass.control_in]
  rw [if_pos ⟨trivial, trivial, trivial⟩]
  simp only [vendor_code_to_descriptor_set]
  rw [if_neg (by omega : ¬(i + 1 = 0))]
  simp only [Nat.add_sub_cancel, Option.some_bind]
  rw [List.get?_eq_get hs]

/-- C4 witness: with one capability entry and one configured buffer, record
0 carries vendor code 1 and selector 1 is served with that buffer. -/
theorem c4_vendor_code_correlation_witness :
    ((Capabilities.mk [⟨⟨0x06030000, [], []⟩, 0⟩]).descriptor_data 25).bind
        (fun l => l.get? 23) = some 1 ∧
    MsOsUsbClass.control_in [[1, 2, 3]]
        ⟨RequestType.Vendor, Recipient.Device, 1, 0, DescriptorIndex.Descriptor⟩ =
      XferOutcome.acceptedWithStatic [1, 2, 3] := by
  have h := c4_vendor_code_correlation (Capabilities.mk [⟨⟨0x06030000, [], []⟩, 0⟩])
    (by decide) (by decide) 0 (by decide) [[1, 2, 3]] (by decide) 0
  rw [show 17 + 8 * (Capabilities.mk
      [⟨⟨0x06030000, [], []⟩, 0⟩]).infos.length = 25 from by decide,
    show 17 + (8 * 0 + 6) = 23 from by decide] at h
  exact h

/-- C5: a discovery request (Vendor/Device, index 0x07) whose selector is 0
or exceeds the number of configured descriptor set buffers is rejected, and
every alternate-enumeration request (Vendor/Device, index 0x08) is rejected
regardless of its value payload. -/
theorem c5_rejection_completeness :
    (∀ (sets : List (List Nat)) (sel v : Nat), sel = 0 ∨ sets.length < sel →
      MsOsUsbClass.control_in sets
          ⟨RequestType.Vendor, Recipient.Device, sel, v, DescriptorIndex.Descriptor⟩ =
        XferOutcome.rejected) ∧
    (∀ (sel v : Nat),
      MsOsUsbClass.control_out
          ⟨RequestType.Vendor, Recipient.Device, sel, v,
            DescriptorIndex.SetAltEnumeration⟩ =
        XferOutcome.rejected) := by
  constructor
  · intro sets sel v hsel
    simp only [MsOsUsbClass.control_in]
    rw [if_pos ⟨trivial, trivial, trivial⟩]
    rcases hsel with h0 | hgt
    · subst h0
      simp [vendor_code_to_descriptor_set]
    · simp only [vendor_code_to_descriptor_set]
      rw [if_neg (by omega : ¬(sel = 0))]
      simp only [Option.some_bind]
      rw [List.get?_eq_none.mpr (by omega)]
  · intro sel v
    simp only [MsOsUsbClass.control_out]
    rw [if_pos ⟨trivial, trivial, trivial⟩]

/-- C5 witness: selector 5 against an empty buffer table is rejected, and a
concrete alternate-enumeration request is rejected. -/
theorem c5_rejection_completeness_witness :
    MsOsUsbClass.control_in []
        ⟨RequestType.Vendor, Recipient.Device, 5, 0, DescriptorIndex.Descriptor⟩ =
      XferOutcome.rejected ∧
    MsOsUsbClass.control_out
        ⟨RequestType.Vendor, Recipient.Device, 0, 0x1234,
          DescriptorIndex.SetAltEnumeration⟩ =
      XferOutcome.rejected :=
  ⟨c5_rejection_completeness.1 [] 5 0 (Or.inr (by decide)),
   c5_rejection_completeness.2 0 0x1234⟩

/-- C6: a descriptor set with no features and no configurations encodes to
exactly the 10 bytes `0A 00 00 00 <version LE> 0A 00`. -/
theorem c6_empty_set_bytes (v : Nat) (hv : WindowsVersion.MINIMAL ≤ v) :
    (DescriptorSet.mk v [] []).descriptor 10 =
      some ([0x0A, 0x00, 0x00, 0x00] ++ u32le v ++ [0x0A, 0x00]) := by
  have hwf : (DescriptorSet.mk v [] []).wf := by
    refine ⟨?_, ?_, ?_⟩
    · intro f hf; exact absurd hf (List.not_mem_nil f)
    · intro c hc; exact absurd hc (List.not_mem_nil c)
    · simp [setLen, featuresLen, configurationsLen]
  rw [descriptor_eq _ hwf hv 10]
  have hlen : setLen (DescriptorSet.mk v [] []) = 10 := by
    simp [setLen, featuresLen, configurationsLen]
  rw [hlen, if_pos (le_refl _), Nat.sub_self]
  refine congrArg some ?_
  simp only [setBytes, hlen, List.replicate, List.append_nil]
  simp [featuresBytes, configurationsBytes, u16le]

/-- C6 witness: the empty set at the floor version encodes to
`0A 00 00 00 00 00 03 06 0A 00`. -/
theorem c6_empty_set_bytes_witness :
    (DescriptorSet.mk 0x06030000 [] []).descriptor 10 =
      some [0x0A, 0x00, 0x00, 0x00, 0x00, 0x00, 0x03, 0x06, 0x0A, 0x00] := by
  have h := c6_empty_set_bytes 0x06030000 (by decide)
  simpa [u32le] using h

/-- C7: a CompatibleId feature with id `WINUSB\x00\x00` and sub-id
`TESTING\x00` encodes to exactly the 20 bytes
`14 00 03 00 57 49 4E 55 53 42 00 00 54 45 53 54 49 4E 47 00`. -/
theorem c7_compatible_id_bytes :
    FeatureDescriptor.descriptor
        (.CompatibleId [0x57, 0x49, 0x4E, 0x55, 0x53, 0x42, 0x00, 0x00]
          [0x54, 0x45, 0x53, 0x54, 0x49, 0x4E, 0x47, 0x00]) 20 =
      some [0x14, 0x00, 0x03, 0x00,
        0x57, 0x49, 0x4E, 0x55, 0x53, 0x42, 0x00, 0x00,
        0x54, 0x45, 0x53, 0x54, 0x49, 0x4E, 0x47, 0x00] := by
  decide

/-- C8: descriptor construction fails (no buffer is produced) for every
descriptor set whose version is below the `WinBlue` floor, both in
`DescriptorSet::descriptor` and — for any referenced set — in
`Capabilities::descriptor_data`; for versions at or above the floor the
check-minimal branch is not taken and the version bytes are produced. -/
theorem c8_version_floor :
    (∀ (s : DescriptorSet) (N : Nat), s.version < WindowsVersion.MINIMAL →
      s.descriptor N = none) ∧
    (∀ (c : Capabilities) (N : Nat),
      (∃ info ∈ c.infos, info.descriptors.version < WindowsVersion.MINIMAL) →
      c.descriptor_data N = none) ∧
    (∀ v : Nat, WindowsVersion.MINIMAL ≤ v →
      WindowsVersion.bytes v = some (u32le v)) :=
  ⟨fun s N h => descriptor_version_fail s h N,
   fun c N h => descriptor_data_version_fail c h N,
   fun v h => WindowsVersion.bytes_eq v h⟩

/-- C8 witness: a Win8 (0x06020000) set fails to encode, a capability block
referencing it fails to encode, and the floor version itself passes the
check. -/
theorem c8_version_floor_witness :
    (DescriptorSet.mk 0x06020000 [] []).descriptor 10 = none ∧
    (Capabilities.mk [⟨⟨0x06020000, [], []⟩, 0⟩]).descriptor_data 25 = none ∧
    WindowsVersion.bytes 0x06030000 = some (u32le 0x06030000) :=
  ⟨c8_version_floor.1 (DescriptorSet.mk 0x06020000 [] []) 10 (by decide),
   c8_version_floor.2.1 (Capabilities.mk [⟨⟨0x06020000, [], []⟩, 0⟩]) 25
     ⟨⟨⟨0x06020000, [], []⟩, 0⟩, by decide, by decide⟩,
   c8_version_floor.2.2 0x06030000 (by decide)⟩

/-- C9 counterexample: `FeatureDescriptor::total_len` silently truncates.
For a RegistryProperty with empty name and 65536 data bytes the true
encoded length is 65546, yet `total_len` returns 10 with no error (the
`(2 * name.len() + data.len()) as u16` cast wrapped); likewise
`Capabilities::total_len` for 256 entries returns 20 with no error (the
`infos.len() as u8` cast wrapped). -/
theorem c9_counterexample_silent_truncation :
    (FeatureDescriptor.RegistryProperty .RegSz []
        (List.replicate 65536 0)).total_len = some 10 ∧
    featureLen (FeatureDescriptor.RegistryProperty .RegSz []
        (List.replicate 65536 0)) = 65546 ∧
    (Capabilities.mk (List.replicate 256 ⟨⟨0x06030000, [], []⟩, 0⟩)).total_len =
      some 20 := by
  refine ⟨?_, ?_, ?_⟩
  · show add16 10 ((2 * List.length ([] : List Nat) +
      (List.replicate 65536 (0 : Nat)).length) % 65536) = some 10
    rw [List.length_replicate]
    decide
  · rw [featureLen, List.length_replicate, List.length_nil]
  · unfold Capabilities.total_len
    rw [show (Capabilities.mk (List.replicate 256
        (⟨⟨0x06030000, [], []⟩, 0⟩ : CapabilityInfo))).infos =
      List.replicate 256 ⟨⟨0x06030000, [], []⟩, 0⟩ from rfl]
    rw [List.length_replicate]
    decide

/-- C9 amended: the additions and multiplications of the size calculators
are checked wire-width operations — a 16-bit sum or an 8-bit product that
overflows is a build-time error, as in a capability set of 32..255 entries
— and the calculators are exact whenever the `usize`-to-wire casts do not
truncate (feature payload below the 16-bit limit, at most 29 capability
entries); but the casts themselves (`(2*name.len()+data.len()) as u16`,
`infos.len() as u8`) truncate silently, so the exactness bound is a caller
obligation, not a surfaced error. -/
theorem c9_amended_checked_arithmetic :
    (∀ (dt : PropertyDataType) (name data : List Nat),
      2 * name.length + data.length < 65526 →
      (FeatureDescriptor.RegistryProperty dt name data).total_len =
        some (10 + 2 * name.length + data.length)) ∧
    (∀ c : Capabilities, c.infos.length ≤ 29 →
      c.total_len = some (20 + 8 * c.infos.length)) ∧
    (∀ c : Capabilities, 32 ≤ c.infos.length → c.infos.length < 256 →
      c.total_len = none) := by
  refine ⟨?_, ?_, ?_⟩
  · intro dt name data h
    have := featureTotalLen_eq (.RegistryProperty dt name data)
      (by simpa [FeatureDescriptor.wf] using (by omega : 10 + 2 * name.length + data.length < 65536))
    simpa [featureLen] using this
  · intro c h
    exact capabilitiesTotalLen_eq c h
  · intro c h1 h2
    have hm : c.infos.length % 256 = c.infos.length := Nat.mod_eq_of_lt (by omega)
    simp only [Capabilities.total_len, mul8, hm]
    rw [if_neg (by omega)]
    rfl

/-- C9 amended witness: a small registry property sizes exactly, a one-entry
capability set sizes exactly, and a 32-entry capability set is a build-time
error. -/
theorem c9_amended_checked_arithmetic_witness :
    (FeatureDescriptor.RegistryProperty .RegSz [0x41] [1, 2]).total_len =
      some 14 ∧
    (Capabilities.mk [⟨⟨0x06030000, [], []⟩, 0⟩]).total_len = some 28 ∧
    (Capabilities.mk (List.replicate 32 ⟨⟨0x06030000, [], []⟩, 0⟩)).total_len =
      none :=
  ⟨c9_amended_checked_arithmetic.1 .RegSz [0x41] [1, 2] (by decide),
   c9_amended_checked_arithmetic.2.1 (Capabilities.mk [⟨⟨0x06030000, [], []⟩, 0⟩])
     (by decide),
   c9_amended_checked_arithmetic.2.2
     (Capabilities.mk (List.replicate 32 ⟨⟨0x06030000, [], []⟩, 0⟩))
     (by show 32 ≤ (List.replicate 32
          (⟨⟨0x06030000, [], []⟩, 0⟩ : CapabilityInfo)).length
         rw [List.length_replicate])
     (by show (List.replicate 32
          (⟨⟨0x06030000, [], []⟩, 0⟩ : CapabilityInfo)).length < 256
         rw [List.length_replicate]
         decide)⟩

/-- C10: for a well-formed descriptor set at or above the version floor,
`descriptor::<N>()` with `N` strictly greater than `size()` does not reject
the mismatch: it succeeds, the first `size()` bytes are the complete
encoding (the same bytes produced at the exact size) and the remaining
bytes stay zero; only `N` strictly below `size()` fails the bounds check. -/
theorem c10_oversized_buffer (s : DescriptorSet) (hwf : s.wf)
    (hver : WindowsVersion.MINIMAL ≤ s.version) (N : Nat) :
    (setLen s < N →
      s.descriptor N = some (setBytes s ++ List.replicate (N - setLen s) 0)) ∧
    s.descriptor (setLen s) = some (setBytes s) ∧
    (setBytes s).length = setLen s ∧
    (N < setLen s → s.descriptor N = none) := by
  refine ⟨?_, ?_, setBytes_length s hwf, ?_⟩
  · intro h
    rw [descriptor_eq s hwf hver N, if_pos (le_of_lt h)]
  · rw [descriptor_eq s hwf hver (setLen s), if_pos (le_refl _), Nat.sub_self]
    simp only [List.replicate, List.append_nil]
  · intro h
    rw [descriptor_eq s hwf hver N, if_neg (by omega)]

/-- C10 witness: the empty floor-version set (size 10) zero-pads a 12-byte
buffer, encodes exactly at 10, and fails at 9. -/
theorem c10_oversized_buffer_witness :
    ((DescriptorSet.mk 0x06030000 [] []).descriptor 12 =
      some (setBytes (DescriptorSet.mk 0x06030000 [] []) ++ List.replicate 2 0)) ∧
    (DescriptorSet.mk 0x06030000 [] []).descriptor 10 =
      some (setBytes (DescriptorSet.mk 0x06030000 [] [])) ∧
    (setBytes (DescriptorSet.mk 0x06030000 [] [])).length = 10 ∧
    (DescriptorSet.mk 0x06030000 [] []).descriptor 9 = none := by
  have h := c10_oversized_buffer (DescriptorSet.mk 0x06030000 [] [])
    (by decide) (by decide) 12
  have h9 := c10_oversized_buffer (DescriptorSet.mk 0x06030000 [] [])
    (by decide) (by decide) 9
  rw [show setLen (DescriptorSet.mk 0x06030000 [] []) = 10 from by decide] at h h9
  exact ⟨by simpa using h.1 (by decide), h.2.1, h.2.2.1, h9.2.2.2 (by decide)⟩

end MsOs
